import Mathlib

/-!
Node sets of the XCom group-communication engine: a verification development
for `plugin/group_replication/libmysqlgcs/src/bindings/xcom/xcom/node_set.cc`.

The embedding:

* `bool_t` is the RPC boolean, a C `int`; it is embedded as `Int`.  The only
  arithmetic done on flags is `&&`, `||`, `^`, `==` and copying, none of which
  leaves the range of a 32 bit `int`, so no wrap-around is involved.
* `u_int` / `node_no` are embedded as `Nat`.  The only arithmetic done on them
  is `i++` and `count++`, both bounded by `node_set_len`, itself a `u_int`.
* The backing stores live in an explicit heap (`Heap`): a list of blocks of
  flags, address `0` being `nullptr` and address `k + 1` naming block `k`.
  A freed block stays in the list as `none`; an allocation always returns a
  fresh address.  Reading or writing outside a live block, and freeing a block
  that is not live, is undefined behaviour in C and is `none` here.
  Allocation never fails.
* A `node_set` is the C struct `{ node_set_len; node_set_val }`, the second
  field being an address in the heap.  A `node_set *` parameter is embedded
  as the struct it points to (a function that assigns to the struct returns
  the new struct), so the `if (set)` guards of the source are always taken.
  Two structs may name the same block: that is how `op(a, a)` and the by-value
  parameter of `remove_node` are represented.
* `xcom_cache.h` only declares the instance cache; its implementation is not
  among the sources, and the section on the instance cache models the part that
  is needed here from the spec.
-/

namespace Xcom

/-- The RPC boolean `bool_t`, a C `int`. -/
abbrev bool_t := Int

/-- The constant `TRUE` of `rpc/types.h`. -/
def TRUE : bool_t := 1

/-- The constant `FALSE` of `rpc/types.h`. -/
def FALSE : bool_t := 0

/-- The heap of flag arrays: block `k` is named by address `k + 1`, a freed
block is `none`. -/
structure Heap where
  blocks : List (Option (List bool_t))
deriving DecidableEq

/-- The C struct `node_set`: a length and the address of the backing store. -/
structure node_set where
  node_set_len : Nat
  node_set_val : Nat
deriving DecidableEq

/-- The live block at address `p`, if there is one. -/
def Heap.block (h : Heap) (p : Nat) : Option (List bool_t) :=
  match p with
  | 0 => none
  | q + 1 => (h.blocks[q]?).join

/-- The number of flags of the live block at address `p`. -/
def Heap.size (h : Heap) (p : Nat) : Option Nat :=
  (h.block p).map List.length

/-- The C expression `p[i]` read as an rvalue. -/
def Heap.read (h : Heap) (p i : Nat) : Option bool_t :=
  (h.block p).bind (fun b => b[i]?)

/-- The C statement `p[i] = v`. -/
def Heap.write (h : Heap) (p i : Nat) (v : bool_t) : Option Heap :=
  match h.block p with
  | some b => if i < b.length then some ⟨h.blocks.set (p - 1) (some (b.set i v))⟩ else none
  | none => none

/-- The call `calloc(n, sizeof(bool_t))`: a fresh block of `n` zero flags. -/
def Heap.calloc (h : Heap) (n : Nat) : Nat × Heap :=
  (h.blocks.length + 1, ⟨h.blocks ++ [some (List.replicate n 0)]⟩)

/-- The call `free(p)` for a non-null `p`. -/
def Heap.free (h : Heap) (p : Nat) : Option Heap :=
  match h.block p with
  | some _ => some ⟨h.blocks.set (p - 1) none⟩
  | none => none

/-- The call `realloc(p, n * sizeof(bool_t))`.  The first `min old n` flags are
kept, the flags exposed by growing are indeterminate and taken from `junk`.
With `p` null this is `malloc`; the block keeps its address otherwise (a
request for `n = 0` leaves a live block of no flags). -/
def Heap.realloc (h : Heap) (p n : Nat) (junk : Nat → bool_t) : Option (Nat × Heap) :=
  if p = 0 then
    some (h.blocks.length + 1, ⟨h.blocks ++ [some ((List.range n).map junk)]⟩)
  else
    match h.block p with
    | some b =>
      some (p, ⟨h.blocks.set (p - 1)
        (some (b.take n ++ (List.range (n - b.length)).map (fun k => junk (b.length + k))))⟩)
    | none => none

/-- The loop `for (i = lo; i < lo + k; i++) body`, the body being a statement
that may fault. -/
def for_loop (body : Nat → Heap → Option Heap) : Nat → Nat → Heap → Option Heap
  | 0, _, h => some h
  | k + 1, i, h => (body i h).bind (for_loop body k (i + 1))

/-- The C truth test of a flag, as in `if (v)`. -/
def truthy (v : bool_t) : Bool := v != 0

/-- The value of the C expression `a && b`, given the value of `a` and the
(possibly faulting) evaluation of `b`, which is skipped when `a` is zero. -/
def c_and (a : bool_t) (b : Option bool_t) : Option bool_t :=
  if a ≠ 0 then b.map (fun v => if v ≠ 0 then 1 else 0) else some 0

/-- The value of the C expression `a || b`, given the value of `a` and the
(possibly faulting) evaluation of `b`, which is skipped when `a` is not zero. -/
def c_or (a : bool_t) (b : Option bool_t) : Option bool_t :=
  if a ≠ 0 then some 1 else b.map (fun v => if v ≠ 0 then 1 else 0)

/-- The function `alloc_node_set`: the old backing store is not released. -/
def alloc_node_set (_set : node_set) (n : Nat) (h : Heap) : node_set × Heap :=
  let r := h.calloc n
  ({ node_set_len := n, node_set_val := r.1 }, r.2)

/-- The function `realloc_node_set`. -/
def realloc_node_set (set : node_set) (n : Nat) (junk : Nat → bool_t) (h : Heap) :
    Option (node_set × Heap) :=
  let old_n := set.node_set_len
  let old_p := set.node_set_val
  (h.realloc old_p n junk).bind fun r =>
    (for_loop (fun i s => s.write r.1 i 0) (n - old_n) old_n r.2).map fun h' =>
      ({ node_set_len := n, node_set_val := r.1 }, h')

/-- Modelled from the spec: the macro `X_FREE` of `xcom_memory.h`, which is
not among the sources; the spec says that release "frees backing storage",
and the pointer is reset to null. -/
def X_FREE (p : Nat) (h : Heap) : Option (Nat × Heap) :=
  (h.free p).map fun h' => (0, h')

/-- The function `free_node_set`. -/
def free_node_set (set : node_set) (h : Heap) : Option (node_set × Heap) :=
  if set.node_set_val ≠ 0 then
    (X_FREE set.node_set_val h).map fun r =>
      ({ node_set_len := 0, node_set_val := r.1 }, r.2)
  else
    some ({ node_set_len := 0, node_set_val := set.node_set_val }, h)

/-- The function `init_node_set`: free first, then allocate. -/
def init_node_set (set : node_set) (n : Nat) (h : Heap) : Option (node_set × Heap) :=
  (free_node_set set h).map fun r => alloc_node_set r.1 n r.2

/-- The function `copy_node_set(from, to)`, with `src` for `from` and `dst`
for `to`: nothing is done for an empty source; the
destination is initialised anew when it is unset or of another length. -/
def copy_node_set (src dst : node_set) (h : Heap) : Option (node_set × Heap) :=
  if src.node_set_len > 0 then
    (if dst.node_set_val = 0 ∨ src.node_set_len ≠ dst.node_set_len then
        init_node_set dst src.node_set_len h
      else some (dst, h)).bind fun r =>
      (for_loop (fun i s => (s.read src.node_set_val i).bind (s.write r.1.node_set_val i))
        src.node_set_len 0 r.2).map fun h' => (r.1, h')
  else
    some (dst, h)

/-- The function `clone_node_set`. -/
def clone_node_set (set : node_set) (h : Heap) : Option (node_set × Heap) :=
  copy_node_set set { node_set_len := 0, node_set_val := 0 } h

/-- The function `set_node_set`. -/
def set_node_set (set : node_set) (h : Heap) : Option (node_set × Heap) :=
  (for_loop (fun i s => s.write set.node_set_val i TRUE) set.node_set_len 0 h).map
    fun h' => (set, h')

/-- The loop of `node_count`, with `k` iterations left at index `i`. -/
def node_count_loop (set : node_set) (h : Heap) : Nat → Nat → Nat → Option Nat
  | 0, _, count => some count
  | k + 1, i, count =>
    (h.read set.node_set_val i).bind fun v =>
      node_count_loop set h k (i + 1) (if v ≠ 0 then count + 1 else count)

/-- The function `node_count`. -/
def node_count (set : node_set) (h : Heap) : Option Nat :=
  node_count_loop set h set.node_set_len 0 0

/-- The loop of `is_empty_node_set`, with `k` iterations left at index `i`. -/
def is_empty_loop (set : node_set) (h : Heap) : Nat → Nat → Option bool_t
  | 0, _ => some TRUE
  | k + 1, i =>
    (h.read set.node_set_val i).bind fun v =>
      if v ≠ 0 then some FALSE else is_empty_loop set h k (i + 1)

/-- The function `is_empty_node_set`. -/
def is_empty_node_set (set : node_set) (h : Heap) : Option bool_t :=
  is_empty_loop set h set.node_set_len 0

/-- The loop of `is_full_node_set`, with `k` iterations left at index `i`. -/
def is_full_loop (set : node_set) (h : Heap) : Nat → Nat → Option bool_t
  | 0, _ => some TRUE
  | k + 1, i =>
    (h.read set.node_set_val i).bind fun v =>
      if v = 0 then some FALSE else is_full_loop set h k (i + 1)

/-- The function `is_full_node_set`. -/
def is_full_node_set (set : node_set) (h : Heap) : Option bool_t :=
  is_full_loop set h set.node_set_len 0

/-- The loop of `equal_node_set`, with `k` iterations left at index `i`. -/
def equal_loop (x y : node_set) (h : Heap) : Nat → Nat → Option bool_t
  | 0, _ => some TRUE
  | k + 1, i =>
    (h.read x.node_set_val i).bind fun a =>
      (h.read y.node_set_val i).bind fun b =>
        if a ≠ b then some FALSE else equal_loop x y h k (i + 1)

/-- The function `equal_node_set`. -/
def equal_node_set (x y : node_set) (h : Heap) : Option bool_t :=
  if x.node_set_len ≠ y.node_set_len then some FALSE
  else equal_loop x y h x.node_set_len 0

/-- The function `is_set`. -/
def is_set (set : node_set) (i : Nat) (h : Heap) : Option bool_t :=
  if i < set.node_set_len then h.read set.node_set_val i else some FALSE

/-- The function `remove_node`: the struct is passed by value, the write goes
to the backing store it shares with the caller's struct. -/
def remove_node (set : node_set) (node : Nat) (h : Heap) : Option Heap :=
  if node < set.node_set_len then h.write set.node_set_val node FALSE else some h

/-- The calls `remove_node(set, i)` for the indices `i` of a list, one after
the other. -/
def remove_nodes (set : node_set) : List Nat → Heap → Option Heap
  | [], h => some h
  | i :: l, h => (remove_node set i h).bind (remove_nodes set l)

/-- The function `and_node_set`: the loop runs while `i` is below both
lengths, that is `min` of them times. -/
def and_node_set (x y : node_set) (h : Heap) : Option Heap :=
  for_loop (fun i s =>
      ((s.read x.node_set_val i).bind fun a => c_and a (s.read y.node_set_val i)).bind
        (s.write x.node_set_val i))
    (min x.node_set_len y.node_set_len) 0 h

/-- The function `or_node_set`. -/
def or_node_set (x y : node_set) (h : Heap) : Option Heap :=
  for_loop (fun i s =>
      ((s.read x.node_set_val i).bind fun a => c_or a (s.read y.node_set_val i)).bind
        (s.write x.node_set_val i))
    (min x.node_set_len y.node_set_len) 0 h

/-- The function `xor_node_set`, with the bitwise `^` of C. -/
def xor_node_set (x y : node_set) (h : Heap) : Option Heap :=
  for_loop (fun i s =>
      ((s.read x.node_set_val i).bind fun a =>
        (s.read y.node_set_val i).map fun b => Int.xor a b).bind
        (s.write x.node_set_val i))
    (min x.node_set_len y.node_set_len) 0 h

/-- The function `not_node_set`: the flags of `y` are tested against `TRUE`. -/
def not_node_set (x y : node_set) (h : Heap) : Option Heap :=
  for_loop (fun i s =>
      ((s.read y.node_set_val i).map fun b => if b = TRUE then FALSE else TRUE).bind
        (s.write x.node_set_val i))
    (min x.node_set_len y.node_set_len) 0 h

/-- The calls that change a node set `c` in place: `set_node_set(&c)`,
`remove_node(c, i)`, the four element-wise operations with `c` as destination
and a source `src`, `realloc_node_set(&c, n)` and `free_node_set(&c)`. -/
inductive Mutation where
  | fill
  | remove (i : Nat)
  | and_with (src : node_set)
  | or_with (src : node_set)
  | xor_with (src : node_set)
  | not_with (src : node_set)
  | resize (n : Nat) (junk : Nat → bool_t)
  | release

/-- The source operand of a mutation, if it has one. -/
def Mutation.source : Mutation → Option node_set
  | .and_with src => some src
  | .or_with src => some src
  | .xor_with src => some src
  | .not_with src => some src
  | _ => none

/-- The effect of a mutation on the set `c`: the struct after the call and the
heap after the call. -/
def Mutation.apply : Mutation → node_set → Heap → Option (node_set × Heap)
  | .fill, c, h => set_node_set c h
  | .remove i, c, h => (remove_node c i h).map fun h' => (c, h')
  | .and_with src, c, h => (and_node_set c src h).map fun h' => (c, h')
  | .or_with src, c, h => (or_node_set c src h).map fun h' => (c, h')
  | .xor_with src, c, h => (xor_node_set c src h).map fun h' => (c, h')
  | .not_with src, c, h => (not_node_set c src h).map fun h' => (c, h')
  | .resize n junk, c, h => realloc_node_set c n junk h
  | .release, c, h => free_node_set c h

/-- A node set is valid in a heap when its backing store is either null, with
length zero, or a live block of exactly `node_set_len` flags. -/
def valid (h : Heap) (s : node_set) : Prop :=
  if s.node_set_val = 0 then s.node_set_len = 0
  else h.size s.node_set_val = some s.node_set_len

instance (h : Heap) (s : node_set) : Decidable (valid h s) := by
  unfold valid; infer_instance

/-- Every flag of the set is one of the two canonical booleans `0` and `1`. -/
def canonical (h : Heap) (s : node_set) : Prop :=
  ∀ i, i < s.node_set_len → h.read s.node_set_val i = some 0 ∨ h.read s.node_set_val i = some 1

instance (h : Heap) (s : node_set) : Decidable (canonical h s) := by
  unfold canonical; infer_instance

/-- A value computed at index `j` that depends only on the flags stored at
index `j` of the blocks of the heap. -/
def IndexLocal (g : Nat → Heap → Option bool_t) : Prop :=
  ∀ j h h', (∀ q, Heap.read h' q j = Heap.read h q j) → g j h' = g j h

/-! ## The instance cache -/

/-- Modelled from the spec: a log position (`synode_no`), the key of the
instance cache; its declaration is not among the sources and the spec uses the
positions 1, 2, 3, 4. -/
abbrev synode_no := Nat

/-- Modelled from the spec: the instance cache of `xcom_cache.cc`, of which only
the declarations in `xcom_cache.h` are among the sources.  The spec gives it
"a hash index keyed by synode", "an LRU ordering over the same set of instances
(most-recently-touched at head, eviction candidate at tail)", a row ceiling and
"the synode of the last instance actually removed".  The index and the ordering
hold the same instances, so the state is the ordering, from head to tail. -/
structure Cache where
  max_rows : Nat
  lru : List synode_no
  last_removed : Option synode_no
deriving DecidableEq

/-- Modelled from the spec: `init_cache` with a row ceiling, an empty cache. -/
def init_cache (max_rows : Nat) : Cache :=
  { max_rows := max_rows, lru := [], last_removed := none }

/-- Modelled from the spec: `hash_get`, the lookup that is a "pure query",
here the answer whether an instance is cached at the position. -/
def hash_get (synode : synode_no) (c : Cache) : Bool :=
  decide (synode ∈ c.lru)

/-- Modelled from the spec: the eviction of the LRU tail, which "records
`synode` as last removed". -/
def evict_lru_tail (c : Cache) : Cache :=
  match c.lru.getLast? with
  | none => c
  | some s => { c with lru := c.lru.dropLast, last_removed := some s }

/-- Modelled from the spec: the creation of an instance, "if the cache is at its
row-count ... ceiling, evict from the LRU tail first ... before inserting the
new entry", the new entry going to "the head of the LRU ordering". -/
def create_instance (synode : synode_no) (c : Cache) : Cache :=
  let c' := if c.max_rows ≤ c.lru.length then evict_lru_tail c else c
  { c' with lru := synode :: c'.lru }

/-- Modelled from the spec: `get_cache_no_touch`, the variant "for callers that
must inspect presence without disturbing recency order"; on a miss it creates
the instance when `force` is requested and has no effect otherwise. -/
def get_cache_no_touch (synode : synode_no) (force : Bool) (c : Cache) : Cache :=
  if hash_get synode c then c
  else if force then create_instance synode c else c

/-- Modelled from the spec: `get_cache`, which "always creates on miss" and on a
hit unlinks the instance "from current LRU position" and relinks it "at
head". -/
def get_cache (synode : synode_no) (c : Cache) : Cache :=
  if hash_get synode c then { c with lru := synode :: c.lru.erase synode }
  else create_instance synode c

/-- Modelled from the spec: `force_get_cache`, with the "same semantics" as
`get_cache`. -/
def force_get_cache (synode : synode_no) (c : Cache) : Cache :=
  get_cache synode c

/-! ## The heap primitives -/

theorem Heap.block_set (h : Heap) (p : Nat) (hp : (h.block p).isSome) (x : Option (List bool_t))
    (q : Nat) : Heap.block ⟨h.blocks.set (p - 1) x⟩ q = if q = p then x else h.block q := by
  cases p with
  | zero => simp [Heap.block] at hp
  | succ p =>
    cases q with
    | zero => simp [Heap.block]
    | succ q =>
      simp only [Heap.block, Nat.add_sub_cancel, List.getElem?_set] at hp ⊢
      by_cases hqp : p = q
      · subst hqp
        have hlt : p < h.blocks.length := by
          by_contra hcon
          rw [List.getElem?_eq_none (by omega)] at hp
          simp at hp
        simp [hlt]
      · have : ¬ (q + 1 = p + 1) := by omega
        simp [hqp, this]

theorem Heap.write_spec (h : Heap) (p i n : Nat) (v : bool_t) (hs : h.size p = some n)
    (hi : i < n) :
    ∃ h', h.write p i v = some h' ∧ (∀ q, h'.size q = h.size q) ∧
      ∀ q j, h'.read q j = if q = p ∧ j = i then some v else h.read q j := by
  unfold Heap.size at hs
  cases hb : h.block p with
  | none => simp [hb] at hs
  | some b =>
    simp [hb] at hs
    subst hs
    refine ⟨⟨h.blocks.set (p - 1) (some (b.set i v))⟩, ?_, ?_, ?_⟩
    · simp [Heap.write, hb, hi]
    · intro q
      unfold Heap.size
      rw [Heap.block_set h p (by simp [hb])]
      by_cases hq : q = p
      · subst hq; simp [hb]
      · simp [hq]
    · intro q j
      unfold Heap.read
      rw [Heap.block_set h p (by simp [hb])]
      by_cases hq : q = p
      · subst hq
        simp only [hb, if_true, Option.bind_some, true_and]
        by_cases hj : j = i
        · subst hj; simp [hi]
        · simp [hj, List.getElem?_set, Ne.symm hj]
      · simp [hq]

theorem Heap.read_isSome (h : Heap) (p i n : Nat) (hs : h.size p = some n) (hi : i < n) :
    ∃ v, h.read p i = some v := by
  unfold Heap.size at hs
  cases hb : h.block p with
  | none => simp [hb] at hs
  | some b =>
    simp [hb] at hs
    subst hs
    exact ⟨b[i], by simp [Heap.read, hb, List.getElem?_eq_getElem hi]⟩

theorem for_loop_write (g : Nat → Heap → Option bool_t) (hg : IndexLocal g) (p n : Nat) :
    ∀ (k i : Nat) (h : Heap), h.size p = some n → i + k ≤ n →
      (∀ j, i ≤ j → j < i + k → ∃ v, g j h = some v) →
      ∃ h', for_loop (fun j s => (g j s).bind (s.write p j)) k i h = some h' ∧
        (∀ q, h'.size q = h.size q) ∧
        ∀ q j, h'.read q j = if q = p ∧ i ≤ j ∧ j < i + k then g j h else h.read q j := by
  intro k
  induction k with
  | zero =>
    intro i h _ _ _
    refine ⟨h, rfl, fun _ => rfl, fun q j => ?_⟩
    have : ¬ (q = p ∧ i ≤ j ∧ j < i + 0) := by omega
    rw [if_neg this]
  | succ k ih =>
    intro i h hs hle hdef
    obtain ⟨v, hv⟩ := hdef i (Nat.le_refl i) (by omega)
    obtain ⟨h1, hw, hsz1, hrd1⟩ := Heap.write_spec h p i n v hs (by omega)
    have hagree : ∀ j, j ≠ i → ∀ q, h1.read q j = h.read q j := by
      intro j hj q
      rw [hrd1]
      have : ¬ (q = p ∧ j = i) := fun hc => hj hc.2
      simp [this]
    have hg1 : ∀ j, j ≠ i → g j h1 = g j h := fun j hj => hg j h h1 (hagree j hj)
    obtain ⟨h2, hl, hsz2, hrd2⟩ := ih (i + 1) h1 (by rw [hsz1]; exact hs) (by omega)
      (by
        intro j hj1 hj2
        rw [hg1 j (by omega)]
        exact hdef j (by omega) (by omega))
    refine ⟨h2, ?_, ?_, ?_⟩
    · show ((g i h).bind (h.write p i)).bind (for_loop _ k (i + 1)) = some h2
      rw [hv, Option.some_bind, hw, Option.some_bind]
      exact hl
    · intro q; rw [hsz2, hsz1]
    · intro q j
      rw [hrd2]
      by_cases hc : q = p ∧ i + 1 ≤ j ∧ j < i + 1 + k
      · have hc' : q = p ∧ i ≤ j ∧ j < i + (k + 1) := ⟨hc.1, by omega, by omega⟩
        rw [if_pos hc, if_pos hc']
        exact hg1 j (by omega)
      · rw [if_neg hc, hrd1]
        by_cases hji : q = p ∧ j = i
        · have hc' : q = p ∧ i ≤ j ∧ j < i + (k + 1) := ⟨hji.1, by omega, by omega⟩
          rw [if_pos hji, if_pos hc', hji.2, hv]
        · have hc' : ¬ (q = p ∧ i ≤ j ∧ j < i + (k + 1)) := by
            intro hcc
            by_cases hj : j = i
            · exact hji ⟨hcc.1, hj⟩
            · exact hc ⟨hcc.1, by omega, by omega⟩
          rw [if_neg hji, if_neg hc']

theorem Heap.block_append (h : Heap) (x : Option (List bool_t)) (q : Nat) :
    Heap.block ⟨h.blocks ++ [x]⟩ q = if q = h.blocks.length + 1 then x else h.block q := by
  cases q with
  | zero => simp [Heap.block]
  | succ q =>
    simp only [Heap.block, Nat.add_right_cancel_iff]
    by_cases hq : q = h.blocks.length
    · subst hq; simp
    · rw [if_neg hq]
      by_cases hlt : q < h.blocks.length
      · rw [List.getElem?_append_left hlt]
      · rw [List.getElem?_eq_none (by simp; omega), List.getElem?_eq_none (by omega)]

theorem Heap.block_fresh (h : Heap) (q : Nat) (hq : h.blocks.length < q) : h.block q = none := by
  cases q with
  | zero => rfl
  | succ q =>
    simp only [Heap.block]
    rw [List.getElem?_eq_none (by omega)]
    rfl

theorem Heap.block_live_le (h : Heap) (q : Nat) (hq : (h.block q).isSome) :
    q ≤ h.blocks.length := by
  by_contra hcon
  rw [Heap.block_fresh h q (by omega)] at hq
  simp at hq

theorem Heap.size_live_le (h : Heap) (q n : Nat) (hq : h.size q = some n) :
    q ≤ h.blocks.length := by
  apply Heap.block_live_le
  unfold Heap.size at hq
  cases hb : h.block q with
  | none => simp [hb] at hq
  | some b => simp

theorem Heap.calloc_spec (h : Heap) (n : Nat) :
    (h.calloc n).1 = h.blocks.length + 1 ∧
    (∀ q, (h.calloc n).2.size q = if q = h.blocks.length + 1 then some n else h.size q) ∧
    ∀ q j, (h.calloc n).2.read q j =
      if q = h.blocks.length + 1 then (if j < n then some 0 else none) else h.read q j := by
  refine ⟨rfl, ?_, ?_⟩
  · intro q
    simp only [Heap.calloc, Heap.size, Heap.block_append]
    by_cases hq : q = h.blocks.length + 1
    · simp [hq]
    · simp [hq]
  · intro q j
    simp only [Heap.calloc, Heap.read, Heap.block_append]
    by_cases hq : q = h.blocks.length + 1
    · simp only [hq, if_true, Option.some_bind]
      by_cases hj : j < n
      · simp [hj]
      · simp [hj]; omega
    · simp [hq]

theorem Heap.free_spec (h : Heap) (p n : Nat) (hs : h.size p = some n) :
    ∃ h', h.free p = some h' ∧ h'.blocks.length = h.blocks.length ∧
      (∀ q, h'.size q = if q = p then none else h.size q) ∧
      ∀ q j, h'.read q j = if q = p then none else h.read q j := by
  unfold Heap.size at hs
  cases hb : h.block p with
  | none => simp [hb] at hs
  | some b =>
    refine ⟨⟨h.blocks.set (p - 1) none⟩, ?_, ?_, ?_, ?_⟩
    · simp [Heap.free, hb]
    · simp
    · intro q
      unfold Heap.size
      rw [Heap.block_set h p (by simp [hb])]
      by_cases hq : q = p
      · simp [hq]
      · simp [hq]
    · intro q j
      unfold Heap.read
      rw [Heap.block_set h p (by simp [hb])]
      by_cases hq : q = p
      · simp [hq]
      · simp [hq]

theorem Heap.size_zero (h : Heap) : h.size 0 = none := rfl

theorem Heap.read_zero (h : Heap) (j : Nat) : h.read 0 j = none := rfl

theorem init_node_set_spec (h : Heap) (set : node_set) (n : Nat) (hv : valid h set) :
    ∃ h', init_node_set set n h = some (⟨n, h.blocks.length + 1⟩, h') ∧
      (∀ q, h'.size q = if q = h.blocks.length + 1 then some n
        else if q = set.node_set_val then none else h.size q) ∧
      ∀ q j, h'.read q j = if q = h.blocks.length + 1 then (if j < n then some 0 else none)
        else if q = set.node_set_val then none else h.read q j := by
  unfold valid at hv
  by_cases hp : set.node_set_val = 0
  · refine ⟨(h.calloc n).2, ?_, ?_, ?_⟩
    · simp [init_node_set, free_node_set, hp, alloc_node_set, Heap.calloc]
    · intro q
      rw [(Heap.calloc_spec h n).2.1 q]
      by_cases hq : q = set.node_set_val
      · rw [if_pos hq, hq, hp]; simp [Heap.size_zero]
      · rw [if_neg hq]
    · intro q j
      rw [(Heap.calloc_spec h n).2.2 q j]
      by_cases hq : q = set.node_set_val
      · rw [if_pos hq, hq, hp]; simp [Heap.read_zero]
      · rw [if_neg hq]
  · rw [if_neg hp] at hv
    obtain ⟨h1, hf, hlen, hsz, hrd⟩ := Heap.free_spec h set.node_set_val set.node_set_len hv
    refine ⟨(h1.calloc n).2, ?_, ?_, ?_⟩
    · simp [init_node_set, free_node_set, hp, X_FREE, hf, alloc_node_set, Heap.calloc, hlen]
    · intro q
      rw [(Heap.calloc_spec h1 n).2.1 q, hlen, hsz]
    · intro q j
      rw [(Heap.calloc_spec h1 n).2.2 q j, hlen, hrd]

theorem valid_live (h : Heap) (s : node_set) (hv : valid h s) (hpos : 0 < s.node_set_len) :
    s.node_set_val ≠ 0 ∧ h.size s.node_set_val = some s.node_set_len := by
  unfold valid at hv
  by_cases hp : s.node_set_val = 0
  · rw [if_pos hp] at hv; omega
  · rw [if_neg hp] at hv; exact ⟨hp, hv⟩

theorem indexLocal_read (p : Nat) : IndexLocal (fun i s => s.read p i) :=
  fun _ _ _ hagree => hagree p

/-! ## Copying -/

/-- C1, as stated, fails: with an empty source and a destination of length 1
the guard `from->node_set_len > 0` skips the whole body, and the destination
keeps its length 1 instead of taking the source's length 0. -/
theorem copy_node_set_empty_source_keeps_length :
    valid ⟨[some [1]]⟩ ⟨0, 0⟩ ∧ valid ⟨[some [1]]⟩ ⟨1, 1⟩ ∧
    (⟨0, 0⟩ : node_set).node_set_len ≠ (⟨1, 1⟩ : node_set).node_set_len ∧
    copy_node_set ⟨0, 0⟩ ⟨1, 1⟩ ⟨[some [1]]⟩ = some (⟨1, 1⟩, ⟨[some [1]]⟩) ∧
    ¬ ∃ r, copy_node_set ⟨0, 0⟩ ⟨1, 1⟩ ⟨[some [1]]⟩ = some r ∧
      r.1.node_set_len = (⟨0, 0⟩ : node_set).node_set_len := by
  refine ⟨by decide, by decide, by decide, by decide, ?_⟩
  rintro ⟨r, hr, hlen⟩
  have h1 : copy_node_set ⟨0, 0⟩ ⟨1, 1⟩ ⟨[some [1]]⟩ = some (⟨1, 1⟩, ⟨[some [1]]⟩) := by decide
  rw [h1] at hr
  cases hr
  simp at hlen

/-- C1, amended: for a source `a` of non-zero length and a destination `dst` of
another length (both valid in the heap), `copy_node_set(a, dst)` returns, leaves
`dst` valid with exactly the length of `a`, stores at every index of `dst` the
flag that `a` has there, and leaves the flags of `a` as they were. -/
theorem copy_node_set_length_mismatch (h : Heap) (a dst : node_set)
    (ha : valid h a) (hd : valid h dst) (hpos : 0 < a.node_set_len)
    (hne : a.node_set_len ≠ dst.node_set_len) :
    ∃ dst' h', copy_node_set a dst h = some (dst', h') ∧
      dst'.node_set_len = a.node_set_len ∧ valid h' dst' ∧ valid h' a ∧
      ∀ i, i < a.node_set_len →
        ∃ v, h.read a.node_set_val i = some v ∧ h'.read a.node_set_val i = some v ∧
          h'.read dst'.node_set_val i = some v := by
  obtain ⟨hap, has⟩ := valid_live h a ha hpos
  obtain ⟨h1, hinit, hsz1, hrd1⟩ := init_node_set_spec h dst a.node_set_len hd
  have hale : a.node_set_val ≤ h.blocks.length := Heap.size_live_le h _ _ has
  have hafresh : a.node_set_val ≠ h.blocks.length + 1 := by omega
  have hadst : a.node_set_val ≠ dst.node_set_val := by
    intro heq
    unfold valid at hd
    rw [← heq, if_neg hap, has] at hd
    exact hne (Option.some.inj hd)
  have hsa1 : h1.size a.node_set_val = some a.node_set_len := by
    rw [hsz1, if_neg hafresh, if_neg hadst]; exact has
  have hra1 : ∀ j, h1.read a.node_set_val j = h.read a.node_set_val j := by
    intro j; rw [hrd1, if_neg hafresh, if_neg hadst]
  have hsn1 : h1.size (h.blocks.length + 1) = some a.node_set_len := by
    rw [hsz1, if_pos rfl]
  obtain ⟨h2, hloop, hsz2, hrd2⟩ := for_loop_write (fun i s => s.read a.node_set_val i)
    (indexLocal_read a.node_set_val) (h.blocks.length + 1) a.node_set_len a.node_set_len 0 h1
    hsn1 (by omega) (fun j _ hj => Heap.read_isSome h1 _ j _ hsa1 (by omega))
  refine ⟨⟨a.node_set_len, h.blocks.length + 1⟩, h2, ?_, rfl, ?_, ?_, ?_⟩
  · unfold copy_node_set
    rw [if_pos hpos, if_pos (Or.inr hne), hinit, Option.some_bind]
    show Option.map _ (for_loop _ _ 0 h1) = _
    rw [hloop]
    rfl
  · unfold valid
    show (if h.blocks.length + 1 = 0 then _ else h2.size (h.blocks.length + 1) = some _)
    rw [if_neg (by omega), hsz2, hsn1]
  · unfold valid
    rw [if_neg hap, hsz2, hsa1]
  · intro i hi
    obtain ⟨v, hv⟩ := Heap.read_isSome h _ i _ has hi
    refine ⟨v, hv, ?_, ?_⟩
    · rw [hrd2, if_neg (fun hc => hafresh hc.1), hra1, hv]
    · show h2.read (h.blocks.length + 1) i = some v
      rw [hrd2, if_pos ⟨rfl, by omega, by omega⟩, hra1, hv]

/-- Witness for C1 (amended): a source of length 2 copied onto a destination of
length 1. -/
theorem copy_node_set_length_mismatch_witness :
    valid ⟨[some [1, 0], some [1]]⟩ ⟨2, 1⟩ ∧ valid ⟨[some [1, 0], some [1]]⟩ ⟨1, 2⟩ ∧
    0 < 2 ∧ 2 ≠ 1 ∧
    ∃ dst' h', copy_node_set ⟨2, 1⟩ ⟨1, 2⟩ ⟨[some [1, 0], some [1]]⟩ = some (dst', h') ∧
      dst'.node_set_len = 2 ∧ valid h' dst' ∧ valid h' ⟨2, 1⟩ ∧
      ∀ i, i < 2 →
        ∃ v, Heap.read ⟨[some [1, 0], some [1]]⟩ 1 i = some v ∧ h'.read 1 i = some v ∧
          h'.read dst'.node_set_val i = some v :=
  ⟨by decide, by decide, by decide, by decide,
    copy_node_set_length_mismatch ⟨[some [1, 0], some [1]]⟩ ⟨2, 1⟩ ⟨1, 2⟩
      (by decide) (by decide) (by decide) (by decide)⟩

/-! ## Equality -/

theorem valid_read (h : Heap) (s : node_set) (hv : valid h s) (i : Nat)
    (hi : i < s.node_set_len) : ∃ v, h.read s.node_set_val i = some v :=
  Heap.read_isSome h _ i _ (valid_live h s hv (by omega)).2 hi

theorem equal_loop_spec (x y : node_set) (h : Heap) :
    ∀ (k i : Nat),
      (∀ j, i ≤ j → j < i + k →
        ∃ va vb, h.read x.node_set_val j = some va ∧ h.read y.node_set_val j = some vb) →
      ∃ r, equal_loop x y h k i = some r ∧ (r = TRUE ∨ r = FALSE) ∧
        (r = TRUE ↔ ∀ j, i ≤ j → j < i + k →
          h.read x.node_set_val j = h.read y.node_set_val j) := by
  intro k
  induction k with
  | zero =>
    intro i _
    exact ⟨TRUE, rfl, Or.inl rfl, fun _ => by intro j h1 h2; omega, fun _ => rfl⟩
  | succ k ih =>
    intro i hdef
    obtain ⟨va, vb, hva, hvb⟩ := hdef i (Nat.le_refl i) (by omega)
    by_cases hab : va = vb
    · obtain ⟨r, hr, hr01, hiff⟩ := ih (i + 1) (fun j h1 h2 => hdef j (by omega) (by omega))
      refine ⟨r, ?_, hr01, ?_⟩
      · simp only [equal_loop, hva, hvb, Option.some_bind]
        rw [if_neg (by simpa using hab)]
        exact hr
      · rw [hiff]
        constructor
        · intro hall j h1 h2
          by_cases hj : j = i
          · rw [hj, hva, hvb, hab]
          · exact hall j (by omega) (by omega)
        · intro hall j h1 h2
          exact hall j (by omega) (by omega)
    · refine ⟨FALSE, ?_, Or.inr rfl, ?_⟩
      · simp only [equal_loop, hva, hvb, Option.some_bind]
        rw [if_pos hab]
      · constructor
        · intro hc; exact absurd hc (by decide)
        · intro hall
          have := hall i (Nat.le_refl i) (by omega)
          rw [hva, hvb] at this
          exact absurd (Option.some.inj this) hab

/-- C2, as stated, fails: two sets of length 1 whose only flags are 1 and 2 are
both set at index 0, yet `equal_node_set` compares the stored integers and
returns `FALSE`. -/
theorem equal_node_set_same_truth_values_unequal :
    valid ⟨[some [1], some [2]]⟩ ⟨1, 1⟩ ∧ valid ⟨[some [1], some [2]]⟩ ⟨1, 2⟩ ∧
    (⟨1, 1⟩ : node_set).node_set_len = (⟨1, 2⟩ : node_set).node_set_len ∧
    (∀ i, i < 1 → (is_set ⟨1, 1⟩ i ⟨[some [1], some [2]]⟩).map truthy =
      (is_set ⟨1, 2⟩ i ⟨[some [1], some [2]]⟩).map truthy) ∧
    equal_node_set ⟨1, 1⟩ ⟨1, 2⟩ ⟨[some [1], some [2]]⟩ = some FALSE := by
  refine ⟨by decide, by decide, by decide, by decide, by decide⟩

/-- C2, amended: for all valid node sets `a` and `b`, `equal_node_set(a, b)`
returns `TRUE` or `FALSE`; it returns `TRUE` exactly when `a` and `b` have the
same length and store the same flag value at every index below that length, and
`FALSE` whenever the lengths differ.  When every flag of `a` and `b` is 0 or 1,
storing the same value is the same as having the same truth value. -/
theorem equal_node_set_iff (h : Heap) (a b : node_set) (ha : valid h a) (hb : valid h b) :
    ∃ r, equal_node_set a b h = some r ∧ (r = TRUE ∨ r = FALSE) ∧
      (r = TRUE ↔ a.node_set_len = b.node_set_len ∧
        ∀ i, i < a.node_set_len → h.read a.node_set_val i = h.read b.node_set_val i) ∧
      (a.node_set_len ≠ b.node_set_len → r = FALSE) ∧
      (canonical h a → canonical h b →
        (r = TRUE ↔ a.node_set_len = b.node_set_len ∧
          ∀ i, i < a.node_set_len →
            (h.read a.node_set_val i).map truthy = (h.read b.node_set_val i).map truthy)) := by
  by_cases hlen : a.node_set_len = b.node_set_len
  · obtain ⟨r, hr, hr01, hiff⟩ := equal_loop_spec a b h a.node_set_len 0 (by
      intro j _ hj
      obtain ⟨va, hva⟩ := valid_read h a ha j (by omega)
      obtain ⟨vb, hvb⟩ := valid_read h b hb j (by omega)
      exact ⟨va, vb, hva, hvb⟩)
    have hiff' : r = TRUE ↔ a.node_set_len = b.node_set_len ∧
        ∀ i, i < a.node_set_len → h.read a.node_set_val i = h.read b.node_set_val i := by
      rw [hiff]
      constructor
      · intro hall; exact ⟨hlen, fun i hi => hall i (Nat.zero_le i) (by omega)⟩
      · intro hall j _ hj; exact hall.2 j (by omega)
    refine ⟨r, ?_, hr01, hiff', fun hne => absurd hlen hne, ?_⟩
    · unfold equal_node_set
      rw [if_neg (by simpa using hlen)]
      exact hr
    · intro hca hcb
      rw [hiff']
      constructor
      · rintro ⟨h1, h2⟩
        exact ⟨h1, fun i hi => by rw [h2 i hi]⟩
      · rintro ⟨h1, h2⟩
        refine ⟨h1, fun i hi => ?_⟩
        have e := h2 i hi
        rcases hca i hi with ha0 | ha1 <;> rcases hcb i (by omega) with hb0 | hb1
        · rw [ha0, hb0]
        · rw [ha0, hb1] at e; exact absurd e (by decide)
        · rw [ha1, hb0] at e; exact absurd e (by decide)
        · rw [ha1, hb1]
  · refine ⟨FALSE, ?_, Or.inr rfl, ?_, fun _ => rfl, ?_⟩
    · unfold equal_node_set
      rw [if_pos hlen]
    · constructor
      · intro hc; exact absurd hc (by decide)
      · intro hc; exact absurd hc.1 hlen
    · intro _ _
      constructor
      · intro hc; exact absurd hc (by decide)
      · intro hc; exact absurd hc.1 hlen

/-- Witness for C2 (amended): the sets {0} and {0, 1} of length 2. -/
theorem equal_node_set_iff_witness :
    valid ⟨[some [1, 0], some [1, 1]]⟩ ⟨2, 1⟩ ∧ valid ⟨[some [1, 0], some [1, 1]]⟩ ⟨2, 2⟩ ∧
    ∃ r, equal_node_set ⟨2, 1⟩ ⟨2, 2⟩ ⟨[some [1, 0], some [1, 1]]⟩ = some r ∧
      (r = TRUE ∨ r = FALSE) ∧
      (r = TRUE ↔ (2 : Nat) = 2 ∧
        ∀ i, i < 2 → Heap.read ⟨[some [1, 0], some [1, 1]]⟩ 1 i =
          Heap.read ⟨[some [1, 0], some [1, 1]]⟩ 2 i) ∧
      ((2 : Nat) ≠ 2 → r = FALSE) ∧
      (canonical ⟨[some [1, 0], some [1, 1]]⟩ ⟨2, 1⟩ →
        canonical ⟨[some [1, 0], some [1, 1]]⟩ ⟨2, 2⟩ →
        (r = TRUE ↔ (2 : Nat) = 2 ∧
          ∀ i, i < 2 → (Heap.read ⟨[some [1, 0], some [1, 1]]⟩ 1 i).map truthy =
            (Heap.read ⟨[some [1, 0], some [1, 1]]⟩ 2 i).map truthy)) :=
  ⟨by decide, by decide,
    equal_node_set_iff ⟨[some [1, 0], some [1, 1]]⟩ ⟨2, 1⟩ ⟨2, 2⟩ (by decide) (by decide)⟩

/-! ## The element-wise operations -/

theorem for_loop_write_valid (g : Nat → Heap → Option bool_t) (hg : IndexLocal g)
    (x : node_set) (k : Nat) (h : Heap) (hv : valid h x) (hk : k ≤ x.node_set_len)
    (hdef : ∀ j, j < k → ∃ v, g j h = some v) :
    ∃ h', for_loop (fun j s => (g j s).bind (s.write x.node_set_val j)) k 0 h = some h' ∧
      (∀ q, h'.size q = h.size q) ∧
      ∀ q j, h'.read q j = if q = x.node_set_val ∧ j < k then g j h else h.read q j := by
  cases k with
  | zero =>
    refine ⟨h, rfl, fun _ => rfl, fun q j => ?_⟩
    rw [if_neg (by omega)]
  | succ k =>
    obtain ⟨h', hl, hsz, hrd⟩ := for_loop_write g hg x.node_set_val x.node_set_len (k + 1) 0 h
      (valid_live h x hv (by omega)).2 (by omega) (fun j _ hj => hdef j (by omega))
    refine ⟨h', hl, hsz, fun q j => ?_⟩
    rw [hrd]
    by_cases hc : q = x.node_set_val ∧ j < k + 1
    · rw [if_pos hc, if_pos ⟨hc.1, Nat.zero_le j, by omega⟩]
    · rw [if_neg hc, if_neg (fun hcc => hc ⟨hcc.1, by omega⟩)]

theorem valid_of_size_eq (h h' : Heap) (s : node_set) (hsz : ∀ q, h'.size q = h.size q)
    (hv : valid h s) : valid h' s := by
  unfold valid at hv ⊢
  by_cases hp : s.node_set_val = 0
  · rw [if_pos hp] at hv ⊢; exact hv
  · rw [if_neg hp] at hv ⊢; rw [hsz]; exact hv

theorem indexLocal_not (y : node_set) :
    IndexLocal (fun i s =>
      (s.read y.node_set_val i).map fun b => if b = TRUE then FALSE else TRUE) := by
  intro j h h' hag
  simp only [hag]

theorem not_node_set_spec (h : Heap) (x y : node_set) (hx : valid h x) (hy : valid h y) :
    ∃ h', not_node_set x y h = some h' ∧ (∀ q, h'.size q = h.size q) ∧
      ∀ q j, h'.read q j =
        if q = x.node_set_val ∧ j < min x.node_set_len y.node_set_len then
          (h.read y.node_set_val j).map fun b => if b = TRUE then FALSE else TRUE
        else h.read q j := by
  apply for_loop_write_valid _ (indexLocal_not y) x _ h hx (Nat.min_le_left _ _)
  intro j hj
  obtain ⟨v, hv⟩ := valid_read h y hy j (by omega)
  exact ⟨_, by rw [hv]; rfl⟩

/-- C3, as stated, fails: a source flag 2 is set, yet `not_node_set` tests it
against `TRUE` (which is 1) and writes `TRUE`, so the written flag is true
although the source flag is not false. -/
theorem not_node_set_of_noncanonical_flag :
    valid ⟨[some [0], some [2]]⟩ ⟨1, 1⟩ ∧ valid ⟨[some [0], some [2]]⟩ ⟨1, 2⟩ ∧
    is_set ⟨1, 2⟩ 0 ⟨[some [0], some [2]]⟩ = some 2 ∧ truthy 2 = true ∧
    not_node_set ⟨1, 1⟩ ⟨1, 2⟩ ⟨[some [0], some [2]]⟩ = some ⟨[some [1], some [2]]⟩ ∧
    is_set ⟨1, 1⟩ 0 ⟨[some [1], some [2]]⟩ = some TRUE ∧ truthy TRUE = true := by
  refine ⟨by decide, by decide, by decide, by decide, by decide, by decide, by decide⟩

/-- C3, amended: for all valid node sets `dst` and `src`, `not_node_set(dst, src)`
returns and writes at every index `i < min(len(dst), len(src))` the flag that is
`FALSE` when the source flag at `i` equals `TRUE` (1) and `TRUE` otherwise; for
a source flag that is 0 or 1 the written flag is therefore true if and only if
the source flag is false.  The written flag is given by the source flag alone. -/
theorem not_node_set_writes (h : Heap) (dst src : node_set)
    (hd : valid h dst) (hs : valid h src) :
    ∃ h', not_node_set dst src h = some h' ∧
      ∀ i, i < min dst.node_set_len src.node_set_len →
        ∃ v, h.read src.node_set_val i = some v ∧
          h'.read dst.node_set_val i = some (if v = TRUE then FALSE else TRUE) ∧
          (v = 0 ∨ v = 1 → (truthy (if v = TRUE then FALSE else TRUE) = true ↔ truthy v = false)) := by
  obtain ⟨h', hn, _, hrd⟩ := not_node_set_spec h dst src hd hs
  refine ⟨h', hn, fun i hi => ?_⟩
  obtain ⟨v, hv⟩ := valid_read h src hs i (by omega)
  refine ⟨v, hv, ?_, ?_⟩
  · rw [hrd, if_pos ⟨rfl, hi⟩, hv]; rfl
  · intro h01
    rcases h01 with h0 | h1
    · subst h0; decide
    · subst h1; decide

/-- Witness for C3 (amended): the destination {0} of length 3 and the source {1}
of length 2. -/
theorem not_node_set_writes_witness :
    valid ⟨[some [1, 0, 0], some [0, 1]]⟩ ⟨3, 1⟩ ∧ valid ⟨[some [1, 0, 0], some [0, 1]]⟩ ⟨2, 2⟩ ∧
    ∃ h', not_node_set ⟨3, 1⟩ ⟨2, 2⟩ ⟨[some [1, 0, 0], some [0, 1]]⟩ = some h' ∧
      ∀ i, i < min 3 2 →
        ∃ v, Heap.read ⟨[some [1, 0, 0], some [0, 1]]⟩ 2 i = some v ∧
          h'.read 1 i = some (if v = TRUE then FALSE else TRUE) ∧
          (v = 0 ∨ v = 1 → (truthy (if v = TRUE then FALSE else TRUE) = true ↔ truthy v = false)) :=
  ⟨by decide, by decide,
    not_node_set_writes ⟨[some [1, 0, 0], some [0, 1]]⟩ ⟨3, 1⟩ ⟨2, 2⟩ (by decide) (by decide)⟩

theorem indexLocal_and (x y : node_set) :
    IndexLocal (fun i s =>
      (s.read x.node_set_val i).bind fun a => c_and a (s.read y.node_set_val i)) := by
  intro j h h' hag
  simp only [hag]

theorem indexLocal_or (x y : node_set) :
    IndexLocal (fun i s =>
      (s.read x.node_set_val i).bind fun a => c_or a (s.read y.node_set_val i)) := by
  intro j h h' hag
  simp only [hag]

theorem indexLocal_xor (x y : node_set) :
    IndexLocal (fun i s =>
      (s.read x.node_set_val i).bind fun a =>
        (s.read y.node_set_val i).map fun b => Int.xor a b) := by
  intro j h h' hag
  simp only [hag]

theorem and_node_set_spec (h : Heap) (x y : node_set) (hx : valid h x) (hy : valid h y) :
    ∃ h', and_node_set x y h = some h' ∧ (∀ q, h'.size q = h.size q) ∧
      ∀ q j, h'.read q j =
        if q = x.node_set_val ∧ j < min x.node_set_len y.node_set_len then
          (h.read x.node_set_val j).bind fun a => c_and a (h.read y.node_set_val j)
        else h.read q j := by
  apply for_loop_write_valid _ (indexLocal_and x y) x _ h hx (Nat.min_le_left _ _)
  intro j hj
  obtain ⟨a, ha⟩ := valid_read h x hx j (by omega)
  obtain ⟨b, hb⟩ := valid_read h y hy j (by omega)
  refine ⟨if a ≠ 0 then (if b ≠ 0 then 1 else 0) else 0, ?_⟩
  simp only [ha, hb, Option.some_bind, c_and, Option.map_some']
  split <;> rfl

theorem or_node_set_spec (h : Heap) (x y : node_set) (hx : valid h x) (hy : valid h y) :
    ∃ h', or_node_set x y h = some h' ∧ (∀ q, h'.size q = h.size q) ∧
      ∀ q j, h'.read q j =
        if q = x.node_set_val ∧ j < min x.node_set_len y.node_set_len then
          (h.read x.node_set_val j).bind fun a => c_or a (h.read y.node_set_val j)
        else h.read q j := by
  apply for_loop_write_valid _ (indexLocal_or x y) x _ h hx (Nat.min_le_left _ _)
  intro j hj
  obtain ⟨a, ha⟩ := valid_read h x hx j (by omega)
  obtain ⟨b, hb⟩ := valid_read h y hy j (by omega)
  refine ⟨if a ≠ 0 then 1 else (if b ≠ 0 then 1 else 0), ?_⟩
  simp only [ha, hb, Option.some_bind, c_or, Option.map_some']
  split <;> rfl

theorem xor_node_set_spec (h : Heap) (x y : node_set) (hx : valid h x) (hy : valid h y) :
    ∃ h', xor_node_set x y h = some h' ∧ (∀ q, h'.size q = h.size q) ∧
      ∀ q j, h'.read q j =
        if q = x.node_set_val ∧ j < min x.node_set_len y.node_set_len then
          (h.read x.node_set_val j).bind fun a =>
            (h.read y.node_set_val j).map fun b => Int.xor a b
        else h.read q j := by
  apply for_loop_write_valid _ (indexLocal_xor x y) x _ h hx (Nat.min_le_left _ _)
  intro j hj
  obtain ⟨a, ha⟩ := valid_read h x hx j (by omega)
  obtain ⟨b, hb⟩ := valid_read h y hy j (by omega)
  exact ⟨Int.xor a b, by simp only [ha, hb, Option.some_bind, Option.map_some']⟩

theorem c_and_self (v : bool_t) : c_and v (some v) = some (if v ≠ 0 then 1 else 0) := by
  unfold c_and
  by_cases hv : v = 0
  · simp [hv]
  · simp [hv]

theorem c_or_self (v : bool_t) : c_or v (some v) = some (if v ≠ 0 then 1 else 0) := by
  unfold c_or
  by_cases hv : v = 0
  · simp [hv]
  · simp [hv]

theorem int_xor_self (v : Int) : Int.xor v v = 0 := by
  cases v with
  | ofNat n => simp [Int.xor]
  | negSucc n => simp [Int.xor]

/-- C4, as stated, fails: on the set of length 1 whose flag is stored as 2,
`and_node_set(a, a)` and `or_node_set(a, a)` store `2 && 2` and `2 || 2`, which
is 1, so the stored flag is not the same as before the call. -/
theorem and_or_node_set_self_normalises :
    valid ⟨[some [2]]⟩ ⟨1, 1⟩ ∧
    is_set ⟨1, 1⟩ 0 ⟨[some [2]]⟩ = some 2 ∧
    and_node_set ⟨1, 1⟩ ⟨1, 1⟩ ⟨[some [2]]⟩ = some ⟨[some [1]]⟩ ∧
    or_node_set ⟨1, 1⟩ ⟨1, 1⟩ ⟨[some [2]]⟩ = some ⟨[some [1]]⟩ ∧
    is_set ⟨1, 1⟩ 0 ⟨[some [1]]⟩ = some 1 := by
  refine ⟨by decide, by decide, by decide, by decide, by decide⟩

/-- C4, amended: for every valid node set `a`, `and_node_set(a, a)` and
`or_node_set(a, a)` return and leave `a` valid with its length; the flag at
every index has the same truth value as before the call (it is stored as 1
where it was non-zero), and when every flag of `a` is 0 or 1 the flag stored at
every index is the same as before the call. -/
theorem and_or_node_set_self (h : Heap) (a : node_set) (ha : valid h a) :
    ∃ h1 h2, and_node_set a a h = some h1 ∧ or_node_set a a h = some h2 ∧
      valid h1 a ∧ valid h2 a ∧
      (∀ i, i < a.node_set_len →
        ∃ v, h.read a.node_set_val i = some v ∧
          h1.read a.node_set_val i = some (if v ≠ 0 then 1 else 0) ∧
          h2.read a.node_set_val i = some (if v ≠ 0 then 1 else 0) ∧
          truthy (if v ≠ 0 then 1 else 0) = truthy v) ∧
      (canonical h a → ∀ i, i < a.node_set_len →
        h1.read a.node_set_val i = h.read a.node_set_val i ∧
        h2.read a.node_set_val i = h.read a.node_set_val i) := by
  obtain ⟨h1, hand, hsz1, hrd1⟩ := and_node_set_spec h a a ha ha
  obtain ⟨h2, hor, hsz2, hrd2⟩ := or_node_set_spec h a a ha ha
  have key : ∀ i, i < a.node_set_len → ∀ v, h.read a.node_set_val i = some v →
      h1.read a.node_set_val i = some (if v ≠ 0 then 1 else 0) ∧
      h2.read a.node_set_val i = some (if v ≠ 0 then 1 else 0) := by
    intro i hi v hv
    constructor
    · rw [hrd1, if_pos ⟨rfl, by simpa using hi⟩, hv, Option.some_bind, c_and_self]
    · rw [hrd2, if_pos ⟨rfl, by simpa using hi⟩, hv, Option.some_bind, c_or_self]
  refine ⟨h1, h2, hand, hor, valid_of_size_eq h h1 a hsz1 ha, valid_of_size_eq h h2 a hsz2 ha,
    ?_, ?_⟩
  · intro i hi
    obtain ⟨v, hv⟩ := valid_read h a ha i hi
    refine ⟨v, hv, (key i hi v hv).1, (key i hi v hv).2, ?_⟩
    by_cases hz : v = 0
    · subst hz; rfl
    · rw [if_pos hz]; simp [truthy, hz]
  · intro hc i hi
    rcases hc i hi with h0 | h1'
    · have := key i hi 0 h0
      rw [h0]; exact this
    · have := key i hi 1 h1'
      rw [h1']; exact this

/-- Witness for C4 (amended): the set {0, 2} of length 3. -/
theorem and_or_node_set_self_witness :
    valid ⟨[some [1, 0, 1]]⟩ ⟨3, 1⟩ ∧
    ∃ h1 h2, and_node_set ⟨3, 1⟩ ⟨3, 1⟩ ⟨[some [1, 0, 1]]⟩ = some h1 ∧
      or_node_set ⟨3, 1⟩ ⟨3, 1⟩ ⟨[some [1, 0, 1]]⟩ = some h2 ∧
      valid h1 ⟨3, 1⟩ ∧ valid h2 ⟨3, 1⟩ ∧
      (∀ i, i < 3 →
        ∃ v, Heap.read ⟨[some [1, 0, 1]]⟩ 1 i = some v ∧
          h1.read 1 i = some (if v ≠ 0 then 1 else 0) ∧
          h2.read 1 i = some (if v ≠ 0 then 1 else 0) ∧
          truthy (if v ≠ 0 then 1 else 0) = truthy v) ∧
      (canonical ⟨[some [1, 0, 1]]⟩ ⟨3, 1⟩ → ∀ i, i < 3 →
        h1.read 1 i = Heap.read ⟨[some [1, 0, 1]]⟩ 1 i ∧
        h2.read 1 i = Heap.read ⟨[some [1, 0, 1]]⟩ 1 i) :=
  ⟨by decide, and_or_node_set_self ⟨[some [1, 0, 1]]⟩ ⟨3, 1⟩ (by decide)⟩

/-! ## Counting and the emptiness and fullness tests -/

theorem node_count_loop_spec (set : node_set) (h : Heap) (f : Nat → bool_t) :
    ∀ (k i count : Nat), (∀ j, i ≤ j → j < i + k → h.read set.node_set_val j = some (f j)) →
      node_count_loop set h k i count =
        some (count + (List.range' i k).countP (fun j => f j != 0)) := by
  intro k
  induction k with
  | zero => intro i count _; simp [node_count_loop]
  | succ k ih =>
    intro i count hf
    have hi := hf i (Nat.le_refl i) (by omega)
    simp only [node_count_loop, hi, Option.some_bind, List.range'_succ, List.countP_cons]
    rw [ih (i + 1) _ (fun j h1 h2 => hf j (by omega) (by omega))]
    by_cases hz : f i = 0
    · simp [hz]
    · simp [hz]; omega

theorem node_count_of_flags (set : node_set) (h : Heap) (f : Nat → bool_t)
    (hf : ∀ j, j < set.node_set_len → h.read set.node_set_val j = some (f j)) :
    node_count set h = some ((List.range set.node_set_len).countP (fun j => f j != 0)) := by
  unfold node_count
  rw [node_count_loop_spec set h f _ 0 0 (fun j _ hj => hf j (by omega)), List.range_eq_range']
  simp

theorem is_empty_loop_spec (set : node_set) (h : Heap) (f : Nat → bool_t) :
    ∀ (k i : Nat), (∀ j, i ≤ j → j < i + k → h.read set.node_set_val j = some (f j)) →
      is_empty_loop set h k i =
        some (if (List.range' i k).all (fun j => f j == 0) then TRUE else FALSE) := by
  intro k
  induction k with
  | zero => intro i _; simp [is_empty_loop]
  | succ k ih =>
    intro i hf
    have hi := hf i (Nat.le_refl i) (by omega)
    simp only [is_empty_loop, hi, Option.some_bind, List.range'_succ, List.all_cons]
    rw [ih (i + 1) (fun j h1 h2 => hf j (by omega) (by omega))]
    by_cases hz : f i = 0
    · simp [hz]
    · simp [hz]

theorem is_empty_of_flags (set : node_set) (h : Heap) (f : Nat → bool_t)
    (hf : ∀ j, j < set.node_set_len → h.read set.node_set_val j = some (f j)) :
    is_empty_node_set set h =
      some (if (List.range set.node_set_len).all (fun j => f j == 0) then TRUE else FALSE) := by
  unfold is_empty_node_set
  rw [is_empty_loop_spec set h f _ 0 (fun j _ hj => hf j (by omega)), List.range_eq_range']

theorem is_full_loop_spec (set : node_set) (h : Heap) (f : Nat → bool_t) :
    ∀ (k i : Nat), (∀ j, i ≤ j → j < i + k → h.read set.node_set_val j = some (f j)) →
      is_full_loop set h k i =
        some (if (List.range' i k).all (fun j => f j != 0) then TRUE else FALSE) := by
  intro k
  induction k with
  | zero => intro i _; simp [is_full_loop]
  | succ k ih =>
    intro i hf
    have hi := hf i (Nat.le_refl i) (by omega)
    simp only [is_full_loop, hi, Option.some_bind, List.range'_succ, List.all_cons]
    rw [ih (i + 1) (fun j h1 h2 => hf j (by omega) (by omega))]
    by_cases hz : f i = 0
    · simp [hz]
    · simp [hz]

theorem is_full_of_flags (set : node_set) (h : Heap) (f : Nat → bool_t)
    (hf : ∀ j, j < set.node_set_len → h.read set.node_set_val j = some (f j)) :
    is_full_node_set set h =
      some (if (List.range set.node_set_len).all (fun j => f j != 0) then TRUE else FALSE) := by
  unfold is_full_node_set
  rw [is_full_loop_spec set h f _ 0 (fun j _ hj => hf j (by omega)), List.range_eq_range']

theorem valid_flags (h : Heap) (s : node_set) (hv : valid h s) :
    ∀ j, j < s.node_set_len →
      h.read s.node_set_val j = some ((fun j => (h.read s.node_set_val j).getD 0) j) := by
  intro j hj
  obtain ⟨v, hv'⟩ := valid_read h s hv j hj
  simp [hv']

/-- The counter of `node_count` never exceeds `node_set_len`, so the `u_int`
counter cannot wrap around. -/
theorem node_count_le (h : Heap) (s : node_set) (hv : valid h s) :
    ∃ count, node_count s h = some count ∧ count ≤ s.node_set_len := by
  refine ⟨_, node_count_of_flags s h _ (valid_flags h s hv), ?_⟩
  calc (List.range s.node_set_len).countP _ ≤ (List.range s.node_set_len).length :=
        List.countP_le_length _
    _ = s.node_set_len := List.length_range _

/-- C5: for every valid node set `a`, whatever its flags, `xor_node_set(a, a)`
returns and leaves `a` valid with its length and with every flag `FALSE`; after
it `node_count` is 0 and `is_empty_node_set` is `TRUE`. -/
theorem xor_node_set_self (h : Heap) (a : node_set) (ha : valid h a) :
    ∃ h', xor_node_set a a h = some h' ∧ valid h' a ∧
      (∀ i, i < a.node_set_len → h'.read a.node_set_val i = some FALSE) ∧
      node_count a h' = some 0 ∧ is_empty_node_set a h' = some TRUE := by
  obtain ⟨h', hx, hsz, hrd⟩ := xor_node_set_spec h a a ha ha
  have hflags : ∀ i, i < a.node_set_len → h'.read a.node_set_val i = some ((fun _ => 0) i) := by
    intro i hi
    obtain ⟨v, hv⟩ := valid_read h a ha i hi
    rw [hrd, if_pos ⟨rfl, by simpa using hi⟩, hv, Option.some_bind, Option.map_some',
      int_xor_self]
  refine ⟨h', hx, valid_of_size_eq h h' a hsz ha, hflags, ?_, ?_⟩
  · rw [node_count_of_flags a h' _ hflags]
    simp
  · rw [is_empty_of_flags a h' _ hflags]
    simp

/-- Witness for C5: the set of length 3 with the flags 2, -5 and 1. -/
theorem xor_node_set_self_witness :
    valid ⟨[some [2, -5, 1]]⟩ ⟨3, 1⟩ ∧
    ∃ h', xor_node_set ⟨3, 1⟩ ⟨3, 1⟩ ⟨[some [2, -5, 1]]⟩ = some h' ∧ valid h' ⟨3, 1⟩ ∧
      (∀ i, i < 3 → h'.read 1 i = some FALSE) ∧
      node_count ⟨3, 1⟩ h' = some 0 ∧ is_empty_node_set ⟨3, 1⟩ h' = some TRUE :=
  ⟨by decide, xor_node_set_self ⟨[some [2, -5, 1]]⟩ ⟨3, 1⟩ (by decide)⟩

/-! ## The frame of the element-wise operations -/

theorem binop_frame (h : Heap) (x y : node_set) (hx : valid h x) (hy : valid h y)
    (op : node_set → node_set → Heap → Option Heap)
    (hop : op ∈ [and_node_set, or_node_set, xor_node_set, not_node_set]) :
    ∃ h', op x y h = some h' ∧ (∀ q, h'.size q = h.size q) ∧
      ∀ q j, ¬ (q = x.node_set_val ∧ j < min x.node_set_len y.node_set_len) →
        h'.read q j = h.read q j := by
  simp only [List.mem_cons, List.mem_singleton, List.not_mem_nil, or_false] at hop
  rcases hop with rfl | rfl | rfl | rfl
  · obtain ⟨h', ho, hsz, hrd⟩ := and_node_set_spec h x y hx hy
    exact ⟨h', ho, hsz, fun q j hn => by rw [hrd, if_neg hn]⟩
  · obtain ⟨h', ho, hsz, hrd⟩ := or_node_set_spec h x y hx hy
    exact ⟨h', ho, hsz, fun q j hn => by rw [hrd, if_neg hn]⟩
  · obtain ⟨h', ho, hsz, hrd⟩ := xor_node_set_spec h x y hx hy
    exact ⟨h', ho, hsz, fun q j hn => by rw [hrd, if_neg hn]⟩
  · obtain ⟨h', ho, hsz, hrd⟩ := not_node_set_spec h x y hx hy
    exact ⟨h', ho, hsz, fun q j hn => by rw [hrd, if_neg hn]⟩

/-- C6, as stated, fails: when the source is the destination itself, as in
`not_node_set(a, a)` on the set {0} of length 1, the flag of the source at
index 0 is changed from 1 to 0 by the call. -/
theorem not_node_set_self_changes_source :
    valid ⟨[some [1]]⟩ ⟨1, 1⟩ ∧
    is_set ⟨1, 1⟩ 0 ⟨[some [1]]⟩ = some 1 ∧
    not_node_set ⟨1, 1⟩ ⟨1, 1⟩ ⟨[some [1]]⟩ = some ⟨[some [0]]⟩ ∧
    is_set ⟨1, 1⟩ 0 ⟨[some [0]]⟩ = some 0 := by
  refine ⟨by decide, by decide, by decide, by decide⟩

/-- C6, amended: for all valid node sets `dst` and `src` and each of
`and_node_set`, `or_node_set`, `xor_node_set` and `not_node_set`, the call
returns, leaves `dst` and `src` valid with their lengths, leaves every flag of
`dst` at an index `i >= min(len(dst), len(src))` unchanged, leaves every flag of
`src` unchanged when `src` has another backing store than `dst`, and changes no
flag of the heap outside the overlapping prefix of `dst`. -/
theorem binop_node_set_frame (h : Heap) (dst src : node_set)
    (hd : valid h dst) (hs : valid h src)
    (op : node_set → node_set → Heap → Option Heap)
    (hop : op ∈ [and_node_set, or_node_set, xor_node_set, not_node_set]) :
    ∃ h', op dst src h = some h' ∧ valid h' dst ∧ valid h' src ∧
      (∀ i, min dst.node_set_len src.node_set_len ≤ i →
        h'.read dst.node_set_val i = h.read dst.node_set_val i) ∧
      (src.node_set_val ≠ dst.node_set_val →
        ∀ i, h'.read src.node_set_val i = h.read src.node_set_val i) ∧
      (∀ q i, ¬ (q = dst.node_set_val ∧ i < min dst.node_set_len src.node_set_len) →
        h'.read q i = h.read q i) := by
  obtain ⟨h', ho, hsz, hfr⟩ := binop_frame h dst src hd hs op hop
  refine ⟨h', ho, valid_of_size_eq h h' dst hsz hd, valid_of_size_eq h h' src hsz hs,
    ?_, ?_, hfr⟩
  · intro i hi
    exact hfr _ i (fun hc => by omega)
  · intro hne i
    exact hfr _ i (fun hc => hne hc.1)

/-- Witness for C6 (amended): `and_node_set` of the full set of length 5 with
the set {1} of length 2 can only affect the indices 0 and 1. -/
theorem binop_node_set_frame_witness :
    valid ⟨[some [1, 1, 1, 1, 1], some [0, 1]]⟩ ⟨5, 1⟩ ∧
    valid ⟨[some [1, 1, 1, 1, 1], some [0, 1]]⟩ ⟨2, 2⟩ ∧
    ∃ h', and_node_set ⟨5, 1⟩ ⟨2, 2⟩ ⟨[some [1, 1, 1, 1, 1], some [0, 1]]⟩ = some h' ∧
      valid h' ⟨5, 1⟩ ∧ valid h' ⟨2, 2⟩ ∧
      (∀ i, min 5 2 ≤ i →
        h'.read 1 i = Heap.read ⟨[some [1, 1, 1, 1, 1], some [0, 1]]⟩ 1 i) ∧
      ((2 : Nat) ≠ 1 →
        ∀ i, h'.read 2 i = Heap.read ⟨[some [1, 1, 1, 1, 1], some [0, 1]]⟩ 2 i) ∧
      (∀ q i, ¬ (q = 1 ∧ i < min 5 2) →
        h'.read q i = Heap.read ⟨[some [1, 1, 1, 1, 1], some [0, 1]]⟩ q i) :=
  ⟨by decide, by decide,
    binop_node_set_frame ⟨[some [1, 1, 1, 1, 1], some [0, 1]]⟩ ⟨5, 1⟩ ⟨2, 2⟩
      (by decide) (by decide) and_node_set (List.Mem.head _)⟩

/-! ## Allocation, filling and removal -/

theorem alloc_node_set_spec (h : Heap) (set : node_set) (n : Nat) :
    (alloc_node_set set n h).1 = ⟨n, h.blocks.length + 1⟩ ∧
    valid (alloc_node_set set n h).2 (alloc_node_set set n h).1 ∧
    (∀ q, (alloc_node_set set n h).2.size q =
      if q = h.blocks.length + 1 then some n else h.size q) ∧
    ∀ q j, (alloc_node_set set n h).2.read q j =
      if q = h.blocks.length + 1 then (if j < n then some 0 else none) else h.read q j := by
  refine ⟨rfl, ?_, (Heap.calloc_spec h n).2.1, (Heap.calloc_spec h n).2.2⟩
  unfold valid
  show (if h.blocks.length + 1 = 0 then _ else (h.calloc n).2.size (h.blocks.length + 1) = some n)
  rw [if_neg (by omega), (Heap.calloc_spec h n).2.1, if_pos rfl]

theorem set_node_set_spec (h : Heap) (set : node_set) (hv : valid h set) :
    ∃ h', set_node_set set h = some (set, h') ∧ (∀ q, h'.size q = h.size q) ∧
      ∀ q j, h'.read q j =
        if q = set.node_set_val ∧ j < set.node_set_len then some TRUE else h.read q j := by
  obtain ⟨h', hl, hsz, hrd⟩ := for_loop_write_valid (fun _ _ => some TRUE)
    (fun _ _ _ _ => rfl) set set.node_set_len h hv (Nat.le_refl _) (fun _ _ => ⟨TRUE, rfl⟩)
  refine ⟨h', ?_, hsz, hrd⟩
  unfold set_node_set
  have hl' : for_loop (fun i s => s.write set.node_set_val i TRUE) set.node_set_len 0 h
      = some h' := hl
  rw [hl']
  rfl

/-- C7: for every `n`, whatever the heap and the previous struct, allocating
`n` slots with `alloc_node_set` and filling them with `set_node_set` returns a
set of length `n` whose `n` flags are all `TRUE`, whose `node_count` is `n` and
for which `is_full_node_set` is `TRUE`. -/
theorem node_count_set_node_set_alloc (h : Heap) (set : node_set) (n : Nat) :
    ∃ h', set_node_set (alloc_node_set set n h).1 (alloc_node_set set n h).2
        = some ((alloc_node_set set n h).1, h') ∧
      (alloc_node_set set n h).1.node_set_len = n ∧
      (∀ i, i < n → h'.read (alloc_node_set set n h).1.node_set_val i = some TRUE) ∧
      node_count (alloc_node_set set n h).1 h' = some n ∧
      is_full_node_set (alloc_node_set set n h).1 h' = some TRUE := by
  obtain ⟨hs, hv, _, _⟩ := alloc_node_set_spec h set n
  obtain ⟨h', hset, _, hrd⟩ := set_node_set_spec _ _ hv
  have hlen : (alloc_node_set set n h).1.node_set_len = n := by rw [hs]
  have hflags : ∀ i, i < (alloc_node_set set n h).1.node_set_len →
      h'.read (alloc_node_set set n h).1.node_set_val i = some ((fun _ => TRUE) i) := by
    intro i hi
    rw [hrd, if_pos ⟨rfl, hi⟩]
  refine ⟨h', hset, hlen, fun i hi => hflags i (by omega), ?_, ?_⟩
  · rw [node_count_of_flags _ h' _ hflags, hlen]
    simp [TRUE]
  · rw [is_full_of_flags _ h' _ hflags]
    simp [TRUE]

theorem zeroed_node_set (h : Heap) (s : node_set)
    (hz : ∀ j, j < s.node_set_len → h.read s.node_set_val j = some 0) :
    (∀ i, i < s.node_set_len → h.read s.node_set_val i = some FALSE) ∧
    node_count s h = some 0 ∧ ∀ i, is_set s i h = some FALSE := by
  refine ⟨hz, ?_, ?_⟩
  · rw [node_count_of_flags s h (fun _ => 0) hz]
    simp
  · intro i
    unfold is_set
    by_cases hi : i < s.node_set_len
    · rw [if_pos hi]; exact hz i hi
    · rw [if_neg hi]

/-- C8: for every `n` and every prior content of the set, `alloc_node_set(set, n)`
leaves the set valid with length `n` and every one of its `n` flags `FALSE`, so
that `node_count` is 0 and `is_set(i)` is `FALSE` for every `i`; the same holds
after `init_node_set(set, n)`, which returns for every set that is valid (so
that its old backing store can be freed). -/
theorem alloc_init_node_set_zeroed (h : Heap) (set : node_set) (n : Nat) :
    ((alloc_node_set set n h).1.node_set_len = n ∧
      valid (alloc_node_set set n h).2 (alloc_node_set set n h).1 ∧
      (∀ i, i < n → (alloc_node_set set n h).2.read (alloc_node_set set n h).1.node_set_val i
        = some FALSE) ∧
      node_count (alloc_node_set set n h).1 (alloc_node_set set n h).2 = some 0 ∧
      ∀ i, is_set (alloc_node_set set n h).1 i (alloc_node_set set n h).2 = some FALSE) ∧
    (valid h set →
      ∃ s' h', init_node_set set n h = some (s', h') ∧
        s'.node_set_len = n ∧ valid h' s' ∧
        (∀ i, i < n → h'.read s'.node_set_val i = some FALSE) ∧
        node_count s' h' = some 0 ∧ ∀ i, is_set s' i h' = some FALSE) := by
  constructor
  · obtain ⟨hs, hv, _, hrd⟩ := alloc_node_set_spec h set n
    have hlen : (alloc_node_set set n h).1.node_set_len = n := by rw [hs]
    have hz : ∀ j, j < (alloc_node_set set n h).1.node_set_len →
        (alloc_node_set set n h).2.read (alloc_node_set set n h).1.node_set_val j = some 0 := by
      intro j hj
      rw [hlen] at hj
      rw [hrd, hs, if_pos rfl, if_pos hj]
    obtain ⟨z1, z2, z3⟩ := zeroed_node_set _ _ hz
    exact ⟨hlen, hv, fun i hi => z1 i (by omega), z2, z3⟩
  · intro hv
    obtain ⟨h', hinit, hsz, hrd⟩ := init_node_set_spec h set n hv
    have hz : ∀ j, j < (⟨n, h.blocks.length + 1⟩ : node_set).node_set_len →
        h'.read (⟨n, h.blocks.length + 1⟩ : node_set).node_set_val j = some 0 := by
      intro j hj
      rw [hrd, if_pos rfl, if_pos hj]
    obtain ⟨z1, z2, z3⟩ := zeroed_node_set _ _ hz
    refine ⟨⟨n, h.blocks.length + 1⟩, h', hinit, rfl, ?_, z1, z2, z3⟩
    unfold valid
    show (if h.blocks.length + 1 = 0 then _ else h'.size (h.blocks.length + 1) = some n)
    rw [if_neg (by omega), hsz, if_pos rfl]

/-- Witness for C8: `init_node_set` of the set {0, 1} of length 2 to length 3. -/
theorem alloc_init_node_set_zeroed_witness :
    valid ⟨[some [1, 1]]⟩ ⟨2, 1⟩ ∧
    ∃ s' h', init_node_set ⟨2, 1⟩ 3 ⟨[some [1, 1]]⟩ = some (s', h') ∧
      s'.node_set_len = 3 ∧ valid h' s' ∧
      (∀ i, i < 3 → h'.read s'.node_set_val i = some FALSE) ∧
      node_count s' h' = some 0 ∧ ∀ i, is_set s' i h' = some FALSE :=
  ⟨by decide, (alloc_init_node_set_zeroed ⟨[some [1, 1]]⟩ ⟨2, 1⟩ 3).2 (by decide)⟩

theorem remove_node_spec (h : Heap) (s : node_set) (i : Nat) (hv : valid h s) :
    ∃ h', remove_node s i h = some h' ∧ (∀ q, h'.size q = h.size q) ∧
      ∀ q j, h'.read q j =
        if q = s.node_set_val ∧ j = i ∧ i < s.node_set_len then some FALSE else h.read q j := by
  unfold remove_node
  by_cases hi : i < s.node_set_len
  · obtain ⟨h', hw, hsz, hrd⟩ := Heap.write_spec h s.node_set_val i s.node_set_len FALSE
      (valid_live h s hv (by omega)).2 hi
    refine ⟨h', by rw [if_pos hi]; exact hw, hsz, fun q j => ?_⟩
    rw [hrd]
    by_cases hc : q = s.node_set_val ∧ j = i
    · rw [if_pos hc, if_pos ⟨hc.1, hc.2, hi⟩]
    · rw [if_neg hc, if_neg (fun hcc => hc ⟨hcc.1, hcc.2.1⟩)]
  · refine ⟨h, by rw [if_neg hi], fun _ => rfl, fun q j => ?_⟩
    rw [if_neg (fun hcc => hi hcc.2.2)]

theorem remove_nodes_spec (s : node_set) :
    ∀ (l : List Nat) (h : Heap), valid h s →
      ∃ h', remove_nodes s l h = some h' ∧ (∀ q, h'.size q = h.size q) ∧
        ∀ q j, h'.read q j =
          if q = s.node_set_val ∧ j ∈ l ∧ j < s.node_set_len then some FALSE
          else h.read q j := by
  intro l
  induction l with
  | nil =>
    intro h _
    exact ⟨h, rfl, fun _ => rfl, fun q j => by simp⟩
  | cons i l ih =>
    intro h hv
    obtain ⟨h1, hr, hsz1, hrd1⟩ := remove_node_spec h s i hv
    obtain ⟨h2, hrs, hsz2, hrd2⟩ := ih h1 (valid_of_size_eq h h1 s hsz1 hv)
    refine ⟨h2, ?_, fun q => by rw [hsz2, hsz1], fun q j => ?_⟩
    · show (remove_node s i h).bind (remove_nodes s l) = some h2
      rw [hr, Option.some_bind, hrs]
    · rw [hrd2, hrd1]
      by_cases hq : q = s.node_set_val
      · by_cases hj : j < s.node_set_len
        · by_cases hl : j ∈ l
          · simp [hq, hj, hl]
          · by_cases hji : j = i
            · subst hji; simp [hq, hj, hl]
            · simp [hq, hj, hl, hji]
        · have hn1 : ¬ (q = s.node_set_val ∧ j ∈ l ∧ j < s.node_set_len) := fun hc => hj hc.2.2
          have hn2 : ¬ (q = s.node_set_val ∧ j = i ∧ i < s.node_set_len) :=
            fun hc => hj (by rw [hc.2.1]; exact hc.2.2)
          have hn3 : ¬ (q = s.node_set_val ∧ j ∈ i :: l ∧ j < s.node_set_len) :=
            fun hc => hj hc.2.2
          rw [if_neg hn1, if_neg hn2, if_neg hn3]
      · have hn1 : ¬ (q = s.node_set_val ∧ j ∈ l ∧ j < s.node_set_len) := fun hc => hq hc.1
        have hn2 : ¬ (q = s.node_set_val ∧ j = i ∧ i < s.node_set_len) := fun hc => hq hc.1
        have hn3 : ¬ (q = s.node_set_val ∧ j ∈ i :: l ∧ j < s.node_set_len) :=
          fun hc => hq hc.1
        rw [if_neg hn1, if_neg hn2, if_neg hn3]

theorem countP_range_not_mem (n : Nat) (l : List Nat) (hnd : l.Nodup)
    (hlt : ∀ i, i ∈ l → i < n) :
    (List.range n).countP (fun j => decide (j ∉ l)) = n - l.length := by
  rw [List.countP_eq_length_filter]
  have hnd2 : ((List.range n).filter (fun j => decide (j ∉ l))).Nodup :=
    (List.nodup_range n).filter _
  rw [← List.toFinset_card_of_nodup hnd2]
  have hset : ((List.range n).filter (fun j => decide (j ∉ l))).toFinset
      = Finset.range n \ l.toFinset := by
    ext x
    simp
  rw [hset, Finset.card_sdiff, Finset.card_range, List.toFinset_card_of_nodup hnd]
  intro x hx
  simp only [List.mem_toFinset, Finset.mem_range] at hx ⊢
  exact hlt x hx

/-- C9: for every `n` and every list `l` of pairwise distinct indices below `n`,
allocating `n` slots, filling them with `set_node_set` and calling `remove_node`
on each index of `l` returns and gives `node_count = n - length l`, `is_set`
being `FALSE` at the removed indices and `TRUE` at the other indices below `n`. -/
theorem node_count_after_remove_nodes (h : Heap) (set : node_set) (n : Nat) (l : List Nat)
    (hnd : l.Nodup) (hlt : ∀ i, i ∈ l → i < n) :
    ∃ h1 h2, set_node_set (alloc_node_set set n h).1 (alloc_node_set set n h).2
        = some ((alloc_node_set set n h).1, h1) ∧
      remove_nodes (alloc_node_set set n h).1 l h1 = some h2 ∧
      node_count (alloc_node_set set n h).1 h2 = some (n - l.length) ∧
      ∀ i, i < n →
        is_set (alloc_node_set set n h).1 i h2 = some (if i ∈ l then FALSE else TRUE) := by
  obtain ⟨hs, hv, _, _⟩ := alloc_node_set_spec h set n
  obtain ⟨h1, hset, hsz1, hrd1⟩ := set_node_set_spec _ _ hv
  obtain ⟨h2, hrem, _, hrd2⟩ := remove_nodes_spec (alloc_node_set set n h).1 l h1
    (valid_of_size_eq _ h1 _ hsz1 hv)
  have hlen : (alloc_node_set set n h).1.node_set_len = n := by rw [hs]
  have hflags : ∀ i, i < (alloc_node_set set n h).1.node_set_len →
      h2.read (alloc_node_set set n h).1.node_set_val i
        = some ((fun j => if j ∈ l then FALSE else TRUE) i) := by
    intro i hi
    rw [hrd2]
    by_cases hil : i ∈ l
    · rw [if_pos ⟨rfl, hil, hi⟩]; simp [hil]
    · rw [if_neg (fun hc => hil hc.2.1), hrd1, if_pos ⟨rfl, hi⟩]; simp [hil]
  refine ⟨h1, h2, hset, hrem, ?_, ?_⟩
  · rw [node_count_of_flags _ h2 _ hflags, hlen, ← countP_range_not_mem n l hnd hlt]
    congr 1
    apply List.countP_congr
    intro j _
    by_cases hjl : j ∈ l
    · simp [hjl, FALSE]
    · simp [hjl, TRUE]
  · intro i hi
    unfold is_set
    rw [if_pos (by omega)]
    exact hflags i (by omega)

/-- Witness for C9: with `n = 5`, removing 0, 2 and 4 leaves {1, 3} and the
count 2. -/
theorem node_count_after_remove_nodes_witness :
    [0, 2, 4].Nodup ∧ (∀ i, i ∈ [0, 2, 4] → i < 5) ∧
    ∃ h1 h2, set_node_set (alloc_node_set ⟨0, 0⟩ 5 ⟨[]⟩).1 (alloc_node_set ⟨0, 0⟩ 5 ⟨[]⟩).2
        = some ((alloc_node_set ⟨0, 0⟩ 5 ⟨[]⟩).1, h1) ∧
      remove_nodes (alloc_node_set ⟨0, 0⟩ 5 ⟨[]⟩).1 [0, 2, 4] h1 = some h2 ∧
      node_count (alloc_node_set ⟨0, 0⟩ 5 ⟨[]⟩).1 h2 = some (5 - [0, 2, 4].length) ∧
      ∀ i, i < 5 →
        is_set (alloc_node_set ⟨0, 0⟩ 5 ⟨[]⟩).1 i h2
          = some (if i ∈ [0, 2, 4] then FALSE else TRUE) :=
  ⟨by decide, by decide,
    node_count_after_remove_nodes ⟨[]⟩ ⟨0, 0⟩ 5 [0, 2, 4] (by decide) (by decide)⟩

/-! ## Intersection with a full set -/

theorem is_full_true_iff (h : Heap) (s : node_set) (hv : valid h s) :
    is_full_node_set s h = some TRUE ↔
      ∀ i, i < s.node_set_len → ∃ v, h.read s.node_set_val i = some v ∧ v ≠ 0 := by
  have hf : ∀ j, j < s.node_set_len →
      h.read s.node_set_val j = some ((fun j => (h.read s.node_set_val j).getD 0) j) := by
    intro j hj
    obtain ⟨v, hv'⟩ := valid_read h s hv j hj
    simp [hv']
  rw [is_full_of_flags s h _ hf]
  constructor
  · intro hall i hi
    obtain ⟨v, hv'⟩ := valid_read h s hv i hi
    refine ⟨v, hv', ?_⟩
    by_cases hc : (List.range s.node_set_len).all
        (fun j => (h.read s.node_set_val j).getD 0 != 0) = true
    · rw [List.all_eq_true] at hc
      have := hc i (List.mem_range.mpr hi)
      simpa [hv'] using this
    · rw [if_neg hc] at hall
      exact absurd (Option.some.inj hall) (by decide)
  · intro hall
    rw [if_pos]
    rw [List.all_eq_true]
    intro j hj
    obtain ⟨v, hv', hne⟩ := hall j (List.mem_range.mp hj)
    simpa [hv'] using hne

/-- C10, as stated, fails: the flag of `a` stored as 2 is set, and
`and_node_set(a, f)` with the full set `f` stores `2 && 1`, which is 1, in its
place, so `a` is not left unchanged at index 0. -/
theorem and_node_set_full_normalises :
    valid ⟨[some [2], some [1]]⟩ ⟨1, 1⟩ ∧ valid ⟨[some [2], some [1]]⟩ ⟨1, 2⟩ ∧
    is_full_node_set ⟨1, 2⟩ ⟨[some [2], some [1]]⟩ = some TRUE ∧
    is_set ⟨1, 1⟩ 0 ⟨[some [2], some [1]]⟩ = some 2 ∧
    and_node_set ⟨1, 1⟩ ⟨1, 2⟩ ⟨[some [2], some [1]]⟩ = some ⟨[some [1], some [1]]⟩ ∧
    is_set ⟨1, 1⟩ 0 ⟨[some [1], some [1]]⟩ = some 1 := by
  refine ⟨by decide, by decide, by decide, by decide, by decide, by decide⟩

/-- C10, amended: for every valid node set `a` and every valid full node set `f`
of the same length, `and_node_set(a, f)` returns and leaves `a` valid with its
length; the flag of `a` at every index has the same truth value as before the
call (it is stored as 1 where it was non-zero), and when every flag of `a` is 0
or 1 the flag stored at every index of `a` is unchanged. -/
theorem and_node_set_full (h : Heap) (a f : node_set) (ha : valid h a) (hf : valid h f)
    (hlen : f.node_set_len = a.node_set_len) (hfull : is_full_node_set f h = some TRUE) :
    ∃ h', and_node_set a f h = some h' ∧ valid h' a ∧
      (∀ i, i < a.node_set_len →
        ∃ v, h.read a.node_set_val i = some v ∧
          h'.read a.node_set_val i = some (if v ≠ 0 then 1 else 0) ∧
          truthy (if v ≠ 0 then 1 else 0) = truthy v) ∧
      (canonical h a → ∀ i, i < a.node_set_len →
        h'.read a.node_set_val i = h.read a.node_set_val i) := by
  obtain ⟨h', hand, hsz, hrd⟩ := and_node_set_spec h a f ha hf
  have hfl := (is_full_true_iff h f hf).mp hfull
  have key : ∀ i, i < a.node_set_len → ∀ v, h.read a.node_set_val i = some v →
      h'.read a.node_set_val i = some (if v ≠ 0 then 1 else 0) := by
    intro i hi v hv
    obtain ⟨w, hw, hwne⟩ := hfl i (by omega)
    rw [hrd, if_pos ⟨rfl, by omega⟩, hv, Option.some_bind, hw]
    unfold c_and
    by_cases hz : v = 0
    · simp [hz]
    · simp [hz, hwne]
  refine ⟨h', hand, valid_of_size_eq h h' a hsz ha, ?_, ?_⟩
  · intro i hi
    obtain ⟨v, hv⟩ := valid_read h a ha i hi
    refine ⟨v, hv, key i hi v hv, ?_⟩
    by_cases hz : v = 0
    · subst hz; rfl
    · rw [if_pos hz]; simp [truthy, hz]
  · intro hc i hi
    rcases hc i hi with h0 | h1
    · rw [h0]; exact key i hi 0 h0
    · rw [h1]; exact key i hi 1 h1

/-- Witness for C10 (amended): the set {1, 3} of length 5 and the full set of
length 5; {1, 3} stays {1, 3}. -/
theorem and_node_set_full_witness :
    valid ⟨[some [0, 1, 0, 1, 0], some [1, 1, 1, 1, 1]]⟩ ⟨5, 1⟩ ∧
    valid ⟨[some [0, 1, 0, 1, 0], some [1, 1, 1, 1, 1]]⟩ ⟨5, 2⟩ ∧
    (5 : Nat) = 5 ∧
    is_full_node_set ⟨5, 2⟩ ⟨[some [0, 1, 0, 1, 0], some [1, 1, 1, 1, 1]]⟩ = some TRUE ∧
    ∃ h', and_node_set ⟨5, 1⟩ ⟨5, 2⟩ ⟨[some [0, 1, 0, 1, 0], some [1, 1, 1, 1, 1]]⟩ = some h' ∧
      valid h' ⟨5, 1⟩ ∧
      (∀ i, i < 5 →
        ∃ v, Heap.read ⟨[some [0, 1, 0, 1, 0], some [1, 1, 1, 1, 1]]⟩ 1 i = some v ∧
          h'.read 1 i = some (if v ≠ 0 then 1 else 0) ∧
          truthy (if v ≠ 0 then 1 else 0) = truthy v) ∧
      (canonical ⟨[some [0, 1, 0, 1, 0], some [1, 1, 1, 1, 1]]⟩ ⟨5, 1⟩ → ∀ i, i < 5 →
        h'.read 1 i = Heap.read ⟨[some [0, 1, 0, 1, 0], some [1, 1, 1, 1, 1]]⟩ 1 i) :=
  ⟨by decide, by decide, rfl, by decide,
    and_node_set_full ⟨[some [0, 1, 0, 1, 0], some [1, 1, 1, 1, 1]]⟩ ⟨5, 1⟩ ⟨5, 2⟩
      (by decide) (by decide) rfl (by decide)⟩

/-! ## Bounds of the index -/

/-- C11: for every node set and every index `i >= node_set_len` (so for every
`i` on a set of length zero) `is_set` returns `FALSE`, without reading the
backing store and without failing; for `i < node_set_len` on a valid set it
returns the flag stored at index `i`. -/
theorem is_set_bounds (h : Heap) (s : node_set) (i : Nat) :
    (s.node_set_len ≤ i → is_set s i h = some FALSE) ∧
    (s.node_set_len = 0 → is_set s i h = some FALSE) ∧
    (valid h s → i < s.node_set_len →
      ∃ v, h.read s.node_set_val i = some v ∧ is_set s i h = some v) := by
  refine ⟨?_, ?_, ?_⟩
  · intro hi
    unfold is_set
    rw [if_neg (by omega)]
  · intro hz
    unfold is_set
    rw [if_neg (by omega)]
  · intro hv hi
    obtain ⟨v, hr⟩ := valid_read h s hv i hi
    refine ⟨v, hr, ?_⟩
    unfold is_set
    rw [if_pos hi, hr]

/-- Witness for C11: index 1 of the set {1} of length 2, and index 2 beyond its
length. -/
theorem is_set_bounds_witness :
    (2 ≤ 2 ∧ is_set ⟨2, 1⟩ 2 ⟨[some [0, 1]]⟩ = some FALSE) ∧
    (valid ⟨[some [0, 1]]⟩ ⟨2, 1⟩ ∧ 1 < 2 ∧
      ∃ v, Heap.read ⟨[some [0, 1]]⟩ 1 1 = some v ∧ is_set ⟨2, 1⟩ 1 ⟨[some [0, 1]]⟩ = some v) :=
  ⟨⟨by decide, (is_set_bounds ⟨[some [0, 1]]⟩ ⟨2, 1⟩ 2).1 (by decide)⟩,
    by decide, by decide, (is_set_bounds ⟨[some [0, 1]]⟩ ⟨2, 1⟩ 1).2.2 (by decide) (by decide)⟩

/-- C12: for every valid node set and every index `i`, `remove_node(set, i)`
returns, leaves the set valid with its length, and leaves the flag at every
index `j != i` unchanged; if `i < node_set_len` then `is_set(set, i)` is `FALSE`
afterwards, and if `i >= node_set_len` the heap is not changed at all. -/
theorem remove_node_frame (h : Heap) (s : node_set) (i : Nat) (hv : valid h s) :
    ∃ h', remove_node s i h = some h' ∧ valid h' s ∧
      (∀ j, j ≠ i → h'.read s.node_set_val j = h.read s.node_set_val j) ∧
      (∀ j, j ≠ i → is_set s j h' = is_set s j h) ∧
      (i < s.node_set_len → is_set s i h' = some FALSE) ∧
      (s.node_set_len ≤ i → h' = h) := by
  obtain ⟨h', hr, hsz, hrd⟩ := remove_node_spec h s i hv
  have hfr : ∀ j, j ≠ i → h'.read s.node_set_val j = h.read s.node_set_val j := by
    intro j hj
    rw [hrd, if_neg (fun hc => hj hc.2.1)]
  refine ⟨h', hr, valid_of_size_eq h h' s hsz hv, hfr, ?_, ?_, ?_⟩
  · intro j hj
    unfold is_set
    rw [hfr j hj]
  · intro hi
    unfold is_set
    rw [if_pos hi, hrd, if_pos ⟨rfl, rfl, hi⟩]
  · intro hi
    have hno : remove_node s i h = some h := by
      unfold remove_node
      rw [if_neg (by omega)]
    rw [hno] at hr
    exact (Option.some.inj hr).symm

/-- Witness for C12: removing index 1 from the full set of length 3. -/
theorem remove_node_frame_witness :
    valid ⟨[some [1, 1, 1]]⟩ ⟨3, 1⟩ ∧
    ∃ h', remove_node ⟨3, 1⟩ 1 ⟨[some [1, 1, 1]]⟩ = some h' ∧ valid h' ⟨3, 1⟩ ∧
      (∀ j, j ≠ 1 → h'.read 1 j = Heap.read ⟨[some [1, 1, 1]]⟩ 1 j) ∧
      (∀ j, j ≠ 1 → is_set ⟨3, 1⟩ j h' = is_set ⟨3, 1⟩ j ⟨[some [1, 1, 1]]⟩) ∧
      (1 < 3 → is_set ⟨3, 1⟩ 1 h' = some FALSE) ∧
      (3 ≤ 1 → h' = ⟨[some [1, 1, 1]]⟩) :=
  ⟨by decide, remove_node_frame ⟨[some [1, 1, 1]]⟩ ⟨3, 1⟩ 1 (by decide)⟩

/-! ## Resizing -/

theorem Heap.block_of_size (h : Heap) (p n : Nat) (hs : h.size p = some n) :
    ∃ b, h.block p = some b ∧ b.length = n := by
  unfold Heap.size at hs
  cases hb : h.block p with
  | none => simp [hb] at hs
  | some b => exact ⟨b, rfl, by simpa [hb] using hs⟩

theorem Heap.realloc_spec (h : Heap) (s : node_set) (n : Nat) (junk : Nat → bool_t)
    (hv : valid h s) :
    ∃ p' h1, h.realloc s.node_set_val n junk = some (p', h1) ∧ p' ≠ 0 ∧
      (p' = s.node_set_val ∨ h.size p' = none) ∧
      h1.size p' = some n ∧
      (∀ j, j < s.node_set_len → j < n → h1.read p' j = h.read s.node_set_val j) ∧
      ∀ q, q ≠ p' → h1.size q = h.size q ∧ ∀ j, h1.read q j = h.read q j := by
  unfold valid at hv
  by_cases hp : s.node_set_val = 0
  · rw [if_pos hp] at hv
    refine ⟨h.blocks.length + 1, ⟨h.blocks ++ [some ((List.range n).map junk)]⟩, ?_, by omega,
      ?_, ?_, ?_, ?_⟩
    · simp [Heap.realloc, hp]
    · right
      unfold Heap.size
      rw [Heap.block_fresh h _ (by omega)]
      rfl
    · unfold Heap.size
      rw [Heap.block_append, if_pos rfl]
      simp
    · intro j hj
      omega
    · intro q hq
      unfold Heap.size Heap.read
      rw [Heap.block_append, if_neg hq]
      exact ⟨rfl, fun _ => rfl⟩
  · rw [if_neg hp] at hv
    obtain ⟨b, hb, hbl⟩ := Heap.block_of_size h _ _ hv
    refine ⟨s.node_set_val, ⟨h.blocks.set (s.node_set_val - 1)
      (some (b.take n ++ (List.range (n - b.length)).map (fun k => junk (b.length + k))))⟩,
      ?_, hp, Or.inl rfl, ?_, ?_, ?_⟩
    · simp [Heap.realloc, hp, hb]
    · unfold Heap.size
      rw [Heap.block_set h _ (by simp [hb]), if_pos rfl]
      simp
      omega
    · intro j hj hjn
      unfold Heap.read
      rw [Heap.block_set h _ (by simp [hb]), if_pos rfl, hb]
      simp only [Option.some_bind]
      rw [List.getElem?_append_left (by simp; omega), List.getElem?_take_of_lt hjn]
    · intro q hq
      unfold Heap.size Heap.read
      rw [Heap.block_set h _ (by simp [hb]), if_neg hq]
      exact ⟨rfl, fun _ => rfl⟩

theorem realloc_node_set_spec (h : Heap) (s : node_set) (n : Nat) (junk : Nat → bool_t)
    (hv : valid h s) :
    ∃ p' h', realloc_node_set s n junk h = some (⟨n, p'⟩, h') ∧ p' ≠ 0 ∧
      (p' = s.node_set_val ∨ h.size p' = none) ∧
      h'.size p' = some n ∧
      (∀ j, j < s.node_set_len → j < n → h'.read p' j = h.read s.node_set_val j) ∧
      (∀ j, s.node_set_len ≤ j → j < n → h'.read p' j = some 0) ∧
      ∀ q, q ≠ p' → h'.size q = h.size q ∧ ∀ j, h'.read q j = h.read q j := by
  obtain ⟨p', h1, hre, hp0, hfresh, hsz1, hkeep, hfr1⟩ := Heap.realloc_spec h s n junk hv
  by_cases hle : s.node_set_len ≤ n
  · obtain ⟨h2, hl, hsz2, hrd2⟩ := for_loop_write (fun _ _ => some 0) (fun _ _ _ _ => rfl)
      p' n (n - s.node_set_len) s.node_set_len h1 hsz1 (by omega) (fun _ _ _ => ⟨0, rfl⟩)
    have hl' : for_loop (fun i s => s.write p' i 0) (n - s.node_set_len) s.node_set_len h1
        = some h2 := hl
    refine ⟨p', h2, ?_, hp0, hfresh, by rw [hsz2, hsz1], ?_, ?_, ?_⟩
    · unfold realloc_node_set
      simp only [hre, Option.some_bind, hl', Option.map_some']
    · intro j hj hjn
      rw [hrd2, if_neg (fun hc => by omega)]
      exact hkeep j hj hjn
    · intro j hj hjn
      rw [hrd2, if_pos ⟨rfl, hj, by omega⟩]
    · intro q hq
      refine ⟨by rw [hsz2]; exact (hfr1 q hq).1, fun j => ?_⟩
      rw [hrd2, if_neg (fun hc => hq hc.1)]
      exact (hfr1 q hq).2 j
  · have hk : n - s.node_set_len = 0 := by omega
    refine ⟨p', h1, ?_, hp0, hfresh, hsz1, hkeep, ?_, hfr1⟩
    · unfold realloc_node_set
      simp only [hre, Option.some_bind, hk, for_loop, Option.map_some']
    · intro j hj hjn
      omega

/-- C13: for every valid node set `old`, every `n` and whatever the
indeterminate content of the memory gained by growing, `realloc_node_set(old, n)`
returns a valid set of length `n` whose flag at every index
`i < min(len(old), n)` is the flag of `old` at `i` and whose flag at every index
`i` with `len(old) <= i < n` is `FALSE`. -/
theorem realloc_node_set_flags (h : Heap) (old : node_set) (n : Nat) (junk : Nat → bool_t)
    (hv : valid h old) :
    ∃ s' h', realloc_node_set old n junk h = some (s', h') ∧
      s'.node_set_len = n ∧ valid h' s' ∧
      (∀ i, i < min old.node_set_len n →
        ∃ v, h.read old.node_set_val i = some v ∧ h'.read s'.node_set_val i = some v) ∧
      (∀ i, old.node_set_len ≤ i → i < n → h'.read s'.node_set_val i = some FALSE) := by
  obtain ⟨p', h', hre, hp0, _, hsz, hkeep, hzero, _⟩ := realloc_node_set_spec h old n junk hv
  refine ⟨⟨n, p'⟩, h', hre, rfl, ?_, ?_, hzero⟩
  · unfold valid
    show (if p' = 0 then _ else h'.size p' = some n)
    rw [if_neg hp0, hsz]
  · intro i hi
    obtain ⟨v, hr⟩ := valid_read h old hv i (by omega)
    refine ⟨v, hr, ?_⟩
    show h'.read p' i = some v
    rw [hkeep i (by omega) (by omega), hr]

/-- Witness for C13: growing the set {0, 1} of length 2 to length 4 over memory
filled with 7. -/
theorem realloc_node_set_flags_witness :
    valid ⟨[some [1, 1]]⟩ ⟨2, 1⟩ ∧
    ∃ s' h', realloc_node_set ⟨2, 1⟩ 4 (fun _ => 7) ⟨[some [1, 1]]⟩ = some (s', h') ∧
      s'.node_set_len = 4 ∧ valid h' s' ∧
      (∀ i, i < min 2 4 →
        ∃ v, Heap.read ⟨[some [1, 1]]⟩ 1 i = some v ∧ h'.read s'.node_set_val i = some v) ∧
      (∀ i, 2 ≤ i → i < 4 → h'.read s'.node_set_val i = some FALSE) :=
  ⟨by decide, realloc_node_set_flags ⟨[some [1, 1]]⟩ ⟨2, 1⟩ 4 (fun _ => 7) (by decide)⟩

/-! ## The empty source and the scans -/

/-- C16: for every destination `dst`, every heap and every source of length 0,
`copy_node_set(source, dst)` returns and is a no-op: the struct of `dst` and
the whole heap, hence the length and every flag of `dst`, are as before; the
destination is neither emptied nor allocated anew. -/
theorem copy_node_set_empty_source (h : Heap) (src dst : node_set)
    (hz : src.node_set_len = 0) :
    copy_node_set src dst h = some (dst, h) := by
  unfold copy_node_set
  rw [if_neg (by omega)]

/-- Witness for C16: an empty source copied onto the set {0, 2} of length 3. -/
theorem copy_node_set_empty_source_witness :
    (⟨0, 0⟩ : node_set).node_set_len = 0 ∧
    copy_node_set ⟨0, 0⟩ ⟨3, 1⟩ ⟨[some [1, 0, 1]]⟩ = some (⟨3, 1⟩, ⟨[some [1, 0, 1]]⟩) :=
  ⟨rfl, copy_node_set_empty_source ⟨[some [1, 0, 1]]⟩ ⟨0, 0⟩ ⟨3, 1⟩ rfl⟩

theorem is_empty_true_iff (h : Heap) (s : node_set) (hv : valid h s) :
    is_empty_node_set s h = some TRUE ↔
      ∀ i, i < s.node_set_len → h.read s.node_set_val i = some 0 := by
  rw [is_empty_of_flags s h _ (valid_flags h s hv)]
  constructor
  · intro hall i hi
    obtain ⟨v, hv'⟩ := valid_read h s hv i hi
    by_cases hc : (List.range s.node_set_len).all
        (fun j => (h.read s.node_set_val j).getD 0 == 0) = true
    · rw [List.all_eq_true] at hc
      have := hc i (List.mem_range.mpr hi)
      rw [hv'] at this ⊢
      simpa using this
    · rw [if_neg hc] at hall
      exact absurd (Option.some.inj hall) (by decide)
  · intro hall
    rw [if_pos]
    rw [List.all_eq_true]
    intro j hj
    rw [hall j (List.mem_range.mp hj)]
    rfl

theorem truth_value_cases (b : Bool) :
    (if b then TRUE else FALSE) = TRUE ∨ (if b then TRUE else FALSE) = FALSE := by
  cases b
  · exact Or.inr rfl
  · exact Or.inl rfl

theorem ite_true_iff (b : Bool) : (if b then TRUE else FALSE) = TRUE ↔ b = true := by
  cases b
  · simp [TRUE, FALSE]
  · simp

/-- C17: for every valid node set `a` the three scans return; `is_empty_node_set`
returns `TRUE` or `FALSE` and is `TRUE` iff `node_count(a) = 0`, that is iff no
flag is set; `is_full_node_set` returns `TRUE` or `FALSE` and is `TRUE` iff
`node_count(a)` is the length of `a`, that is iff every flag is set; both are
`TRUE` on a set of length zero. -/
theorem is_empty_is_full_node_count (h : Heap) (a : node_set) (ha : valid h a) :
    ∃ e f count, is_empty_node_set a h = some e ∧ is_full_node_set a h = some f ∧
      node_count a h = some count ∧
      (e = TRUE ∨ e = FALSE) ∧ (f = TRUE ∨ f = FALSE) ∧
      (e = TRUE ↔ count = 0) ∧
      (e = TRUE ↔ ∀ i, i < a.node_set_len → h.read a.node_set_val i = some 0) ∧
      (f = TRUE ↔ count = a.node_set_len) ∧
      (f = TRUE ↔ ∀ i, i < a.node_set_len → ∃ v, h.read a.node_set_val i = some v ∧ v ≠ 0) ∧
      (a.node_set_len = 0 → e = TRUE ∧ f = TRUE) := by
  have hfl := valid_flags h a ha
  have he := is_empty_of_flags a h _ hfl
  have hf := is_full_of_flags a h _ hfl
  have hc := node_count_of_flags a h _ hfl
  have hei := is_empty_true_iff h a ha
  have hfi := is_full_true_iff h a ha
  rw [he] at hei
  rw [hf] at hfi
  have hecount : (if (List.range a.node_set_len).all
        (fun j => (h.read a.node_set_val j).getD 0 == 0) = true then TRUE else FALSE) = TRUE ↔
      (List.range a.node_set_len).countP (fun j => (h.read a.node_set_val j).getD 0 != 0) = 0 := by
    rw [ite_true_iff, List.all_eq_true, List.countP_eq_zero]
    constructor
    · intro hall j hj
      have := hall j hj
      simpa using this
    · intro hall j hj
      have := hall j hj
      simpa using this
  have hfcount : (if (List.range a.node_set_len).all
        (fun j => (h.read a.node_set_val j).getD 0 != 0) = true then TRUE else FALSE) = TRUE ↔
      (List.range a.node_set_len).countP (fun j => (h.read a.node_set_val j).getD 0 != 0)
        = a.node_set_len := by
    rw [ite_true_iff, List.all_eq_true]
    conv_rhs => rhs; rw [← List.length_range a.node_set_len]
    rw [List.countP_eq_length]
  refine ⟨_, _, _, he, hf, hc, truth_value_cases _, truth_value_cases _, hecount,
    ?_, hfcount, ?_, ?_⟩
  · simpa using hei
  · simpa using hfi
  · intro hz
    rw [hz]
    exact ⟨rfl, rfl⟩

/-- Witness for C17: the set {1} of length 2, neither empty nor full. -/
theorem is_empty_is_full_node_count_witness :
    valid ⟨[some [0, 1]]⟩ ⟨2, 1⟩ ∧
    ∃ e f count, is_empty_node_set ⟨2, 1⟩ ⟨[some [0, 1]]⟩ = some e ∧
      is_full_node_set ⟨2, 1⟩ ⟨[some [0, 1]]⟩ = some f ∧
      node_count ⟨2, 1⟩ ⟨[some [0, 1]]⟩ = some count ∧
      (e = TRUE ∨ e = FALSE) ∧ (f = TRUE ∨ f = FALSE) ∧
      (e = TRUE ↔ count = 0) ∧
      (e = TRUE ↔ ∀ i, i < 2 → Heap.read ⟨[some [0, 1]]⟩ 1 i = some 0) ∧
      (f = TRUE ↔ count = 2) ∧
      (f = TRUE ↔ ∀ i, i < 2 → ∃ v, Heap.read ⟨[some [0, 1]]⟩ 1 i = some v ∧ v ≠ 0) ∧
      ((2 : Nat) = 0 → e = TRUE ∧ f = TRUE) :=
  ⟨by decide, is_empty_is_full_node_count ⟨[some [0, 1]]⟩ ⟨2, 1⟩ (by decide)⟩

/-! ## Copying in general and cloning -/

theorem copy_node_set_spec (h : Heap) (src dst : node_set) (hs : valid h src)
    (hd : valid h dst) (hpos : 0 < src.node_set_len) :
    ∃ d' h', copy_node_set src dst h = some (d', h') ∧
      d'.node_set_len = src.node_set_len ∧ d'.node_set_val ≠ 0 ∧
      h'.size d'.node_set_val = some src.node_set_len ∧
      (d' = dst ∨ h.size d'.node_set_val = none) ∧
      (∀ i, i < src.node_set_len → h'.read d'.node_set_val i = h.read src.node_set_val i) ∧
      ∀ q, q ≠ d'.node_set_val → q ≠ dst.node_set_val →
        h'.size q = h.size q ∧ ∀ j, h'.read q j = h.read q j := by
  obtain ⟨hsp, hss⟩ := valid_live h src hs hpos
  by_cases hcond : dst.node_set_val = 0 ∨ src.node_set_len ≠ dst.node_set_len
  · obtain ⟨h1, hinit, hsz1, hrd1⟩ := init_node_set_spec h dst src.node_set_len hd
    have hsle : src.node_set_val ≤ h.blocks.length := Heap.size_live_le h _ _ hss
    have hsfresh : src.node_set_val ≠ h.blocks.length + 1 := by omega
    have hsdst : src.node_set_val ≠ dst.node_set_val := by
      intro heq
      rcases hcond with hz | hne
      · exact hsp (heq.trans hz)
      · unfold valid at hd
        rw [← heq, if_neg hsp, hss] at hd
        exact hne (Option.some.inj hd)
    have hss1 : h1.size src.node_set_val = some src.node_set_len := by
      rw [hsz1, if_neg hsfresh, if_neg hsdst]; exact hss
    have hrs1 : ∀ j, h1.read src.node_set_val j = h.read src.node_set_val j := by
      intro j; rw [hrd1, if_neg hsfresh, if_neg hsdst]
    have hsn1 : h1.size (h.blocks.length + 1) = some src.node_set_len := by
      rw [hsz1, if_pos rfl]
    obtain ⟨h2, hloop, hsz2, hrd2⟩ := for_loop_write (fun i s => s.read src.node_set_val i)
      (indexLocal_read src.node_set_val) (h.blocks.length + 1) src.node_set_len
      src.node_set_len 0 h1 hsn1 (by omega)
      (fun j _ hj => Heap.read_isSome h1 _ j _ hss1 (by omega))
    refine ⟨⟨src.node_set_len, h.blocks.length + 1⟩, h2, ?_, rfl, ?_, ?_, ?_, ?_, ?_⟩
    · unfold copy_node_set
      rw [if_pos hpos, if_pos hcond, hinit, Option.some_bind]
      show Option.map _ (for_loop _ _ 0 h1) = _
      rw [hloop]
      rfl
    · show h.blocks.length + 1 ≠ 0
      omega
    · show h2.size (h.blocks.length + 1) = _
      rw [hsz2, hsn1]
    · right
      show h.size (h.blocks.length + 1) = none
      unfold Heap.size
      rw [Heap.block_fresh h _ (by omega)]
      rfl
    · intro i hi
      show h2.read (h.blocks.length + 1) i = _
      rw [hrd2, if_pos ⟨rfl, by omega, by omega⟩, hrs1]
    · intro q hq1 hq2
      have hq1' : q ≠ h.blocks.length + 1 := hq1
      refine ⟨by rw [hsz2, hsz1, if_neg hq1', if_neg hq2], fun j => ?_⟩
      rw [hrd2, if_neg (fun hc => hq1' hc.1), hrd1, if_neg hq1', if_neg hq2]
  · have hdp : dst.node_set_val ≠ 0 := fun hz => hcond (Or.inl hz)
    have hlen : src.node_set_len = dst.node_set_len := by
      by_contra hne
      exact hcond (Or.inr hne)
    obtain ⟨h2, hloop, hsz2, hrd2⟩ := for_loop_write_valid
      (fun i s => s.read src.node_set_val i) (indexLocal_read src.node_set_val) dst
      src.node_set_len h hd (by omega) (fun j hj => valid_read h src hs j hj)
    refine ⟨dst, h2, ?_, hlen.symm, hdp, ?_, Or.inl rfl, ?_, ?_⟩
    · unfold copy_node_set
      rw [if_pos hpos, if_neg hcond, Option.some_bind]
      show Option.map _ (for_loop _ _ 0 h) = _
      rw [hloop]
      rfl
    · rw [hsz2, hlen]
      exact (valid_live h dst hd (by omega)).2
    · intro i hi
      rw [hrd2, if_pos ⟨rfl, hi⟩]
    · intro q hq1 _
      refine ⟨hsz2 q, fun j => ?_⟩
      rw [hrd2, if_neg (fun hc => hq1 hc.1)]

theorem valid_null (h : Heap) : valid h ⟨0, 0⟩ := by
  unfold valid
  rw [if_pos rfl]

theorem clone_node_set_spec (h : Heap) (a : node_set) (ha : valid h a) :
    ∃ c h1, clone_node_set a h = some (c, h1) ∧ c.node_set_len = a.node_set_len ∧
      valid h1 c ∧ (c.node_set_val = 0 ∨ h.size c.node_set_val = none) ∧
      (∀ i, i < a.node_set_len → h1.read c.node_set_val i = h.read a.node_set_val i) ∧
      ∀ q, h.size q ≠ none → h1.size q = h.size q ∧ ∀ j, h1.read q j = h.read q j := by
  by_cases hpos : 0 < a.node_set_len
  · obtain ⟨c, h1, hcopy, hlen, hcp, hcs, hfresh, hrd, hfr⟩ :=
      copy_node_set_spec h a ⟨0, 0⟩ ha (valid_null h) hpos
    have hfresh' : h.size c.node_set_val = none := by
      rcases hfresh with heq | hf
      · rw [heq] at hcp; exact absurd rfl hcp
      · exact hf
    refine ⟨c, h1, hcopy, hlen, ?_, Or.inr hfresh', hrd, ?_⟩
    · unfold valid
      rw [if_neg hcp, hcs, hlen]
    · intro q hq
      apply hfr q
      · intro heq; rw [heq] at hq; exact hq hfresh'
      · intro heq
        have hq0 : q = 0 := heq
        rw [hq0] at hq; exact hq rfl
  · have hz : a.node_set_len = 0 := by omega
    refine ⟨⟨0, 0⟩, h, ?_, hz.symm, valid_null h, Or.inl rfl, fun i hi => by omega,
      fun q _ => ⟨rfl, fun _ => rfl⟩⟩
    unfold clone_node_set copy_node_set
    rw [if_neg hpos]

theorem valid_of_live_frame (h h' : Heap) (s : node_set) (hv : valid h s)
    (hfr : ∀ q, h.size q ≠ none → h'.size q = h.size q) : valid h' s := by
  unfold valid at hv ⊢
  by_cases hp : s.node_set_val = 0
  · rw [if_pos hp] at hv ⊢; exact hv
  · rw [if_neg hp] at hv ⊢
    rw [hfr _ (by rw [hv]; exact Option.some_ne_none _)]
    exact hv

theorem valid_size_ne_none (h : Heap) (s : node_set) (hv : valid h s)
    (hpos : 0 < s.node_set_len) : h.size s.node_set_val ≠ none := by
  rw [(valid_live h s hv hpos).2]
  exact Option.some_ne_none _

/-- C14: for every valid node set `a`, `clone_node_set(a)` returns a valid set
with the length of `a` and, at every index, the flag that `a` has there, `a`
itself being left as it was, so that `equal_node_set(clone_node_set(a), a)` is
`TRUE`; for `a` of length zero the clone has length 0. -/
theorem clone_node_set_equal (h : Heap) (a : node_set) (ha : valid h a) :
    ∃ c h', clone_node_set a h = some (c, h') ∧ c.node_set_len = a.node_set_len ∧
      valid h' c ∧ valid h' a ∧
      (∀ i, i < a.node_set_len →
        ∃ v, h.read a.node_set_val i = some v ∧ h'.read a.node_set_val i = some v ∧
          h'.read c.node_set_val i = some v) ∧
      equal_node_set c a h' = some TRUE ∧
      (a.node_set_len = 0 → c.node_set_len = 0) := by
  obtain ⟨c, h', hclone, hlen, hvc, _, hrd, hfr⟩ := clone_node_set_spec h a ha
  have hva : valid h' a := valid_of_live_frame h h' a ha (fun q hq => (hfr q hq).1)
  have hflags : ∀ i, i < a.node_set_len →
      ∃ v, h.read a.node_set_val i = some v ∧ h'.read a.node_set_val i = some v ∧
        h'.read c.node_set_val i = some v := by
    intro i hi
    obtain ⟨v, hv⟩ := valid_read h a ha i hi
    refine ⟨v, hv, ?_, ?_⟩
    · rw [(hfr _ (valid_size_ne_none h a ha (by omega))).2 i, hv]
    · rw [hrd i hi, hv]
  refine ⟨c, h', hclone, hlen, hvc, hva, hflags, ?_, fun hz => by rw [hlen, hz]⟩
  obtain ⟨r, hr, _, hiff⟩ := equal_loop_spec c a h' c.node_set_len 0 (by
    intro j _ hj
    obtain ⟨v, _, h2, h3⟩ := hflags j (by omega)
    exact ⟨v, v, h3, h2⟩)
  have hrT : r = TRUE := by
    rw [hiff]
    intro j _ hj
    obtain ⟨v, _, h2, h3⟩ := hflags j (by omega)
    rw [h2, h3]
  unfold equal_node_set
  rw [if_neg (by simpa using hlen), hr, hrT]

/-- Witness for C14: the clone of the set {0, 2} of length 3. -/
theorem clone_node_set_equal_witness :
    valid ⟨[some [1, 0, 1]]⟩ ⟨3, 1⟩ ∧
    ∃ c h', clone_node_set ⟨3, 1⟩ ⟨[some [1, 0, 1]]⟩ = some (c, h') ∧ c.node_set_len = 3 ∧
      valid h' c ∧ valid h' ⟨3, 1⟩ ∧
      (∀ i, i < 3 →
        ∃ v, Heap.read ⟨[some [1, 0, 1]]⟩ 1 i = some v ∧ h'.read 1 i = some v ∧
          h'.read c.node_set_val i = some v) ∧
      equal_node_set c ⟨3, 1⟩ h' = some TRUE ∧
      ((3 : Nat) = 0 → c.node_set_len = 0) :=
  ⟨by decide, clone_node_set_equal ⟨[some [1, 0, 1]]⟩ ⟨3, 1⟩ (by decide)⟩

/-! ## Independence of the clone -/

theorem free_node_set_spec (h : Heap) (s : node_set) (hv : valid h s) :
    ∃ h', free_node_set s h = some (⟨0, 0⟩, h') ∧
      ∀ q, q ≠ s.node_set_val → h'.size q = h.size q ∧ ∀ j, h'.read q j = h.read q j := by
  unfold valid at hv
  by_cases hp : s.node_set_val = 0
  · refine ⟨h, ?_, fun q _ => ⟨rfl, fun _ => rfl⟩⟩
    unfold free_node_set
    rw [if_neg (by simpa using hp), hp]
  · rw [if_neg hp] at hv
    obtain ⟨h', hf, _, hsz, hrd⟩ := Heap.free_spec h _ _ hv
    refine ⟨h', ?_, fun q hq => ⟨by rw [hsz, if_neg hq], fun j => by rw [hrd, if_neg hq]⟩⟩
    unfold free_node_set X_FREE
    rw [if_pos hp, hf]
    rfl

theorem Mutation.apply_frame (m : Mutation) (h : Heap) (c : node_set) (hc : valid h c)
    (hsrc : ∀ src, m.source = some src → valid h src) :
    ∃ c' h', m.apply c h = some (c', h') ∧
      ∀ q, q ≠ c.node_set_val → h.size q ≠ none →
        h'.size q = h.size q ∧ ∀ j, h'.read q j = h.read q j := by
  have hbin : ∀ (op : node_set → node_set → Heap → Option Heap) (src : node_set),
      op ∈ [and_node_set, or_node_set, xor_node_set, not_node_set] → valid h src →
      ∃ c' h', (op c src h).map (fun h' => (c, h')) = some (c', h') ∧
        ∀ q, q ≠ c.node_set_val → h.size q ≠ none →
          h'.size q = h.size q ∧ ∀ j, h'.read q j = h.read q j := by
    intro op src hop hs
    obtain ⟨h', ho, hsz, hfr⟩ := binop_frame h c src hc hs op hop
    exact ⟨c, h', by rw [ho]; rfl, fun q hq _ => ⟨hsz q, fun j => hfr q j (fun hcc => hq hcc.1)⟩⟩
  cases m with
  | fill =>
    obtain ⟨h', hs, hsz, hrd⟩ := set_node_set_spec h c hc
    exact ⟨c, h', hs, fun q hq _ => ⟨hsz q, fun j => by rw [hrd, if_neg (fun hcc => hq hcc.1)]⟩⟩
  | remove i =>
    obtain ⟨h', hr, hsz, hrd⟩ := remove_node_spec h c i hc
    refine ⟨c, h', ?_, fun q hq _ => ⟨hsz q, fun j => by rw [hrd, if_neg (fun hcc => hq hcc.1)]⟩⟩
    show (remove_node c i h).map _ = _
    rw [hr]; rfl
  | and_with src => exact hbin and_node_set src (by simp) (hsrc src rfl)
  | or_with src => exact hbin or_node_set src (by simp) (hsrc src rfl)
  | xor_with src => exact hbin xor_node_set src (by simp) (hsrc src rfl)
  | not_with src => exact hbin not_node_set src (by simp) (hsrc src rfl)
  | resize n junk =>
    obtain ⟨p', h', hre, _, hfresh, _, _, _, hfr⟩ := realloc_node_set_spec h c n junk hc
    refine ⟨⟨n, p'⟩, h', hre, fun q hq hlive => hfr q ?_⟩
    rcases hfresh with heq | hnone
    · rw [heq]; exact hq
    · intro hqp; rw [hqp] at hlive; exact hlive hnone
  | release =>
    obtain ⟨h', hf, hfr⟩ := free_node_set_spec h c hc
    exact ⟨⟨0, 0⟩, h', hf, fun q hq _ => hfr q hq⟩

/-- C15: for every valid node set `a`, `c = clone_node_set(a)` returns a set
that shares no backing store with `a`, and any one mutation then applied to `c`
(`set_node_set`, `remove_node`, `and`/`or`/`xor`/`not` with `c` as destination
and any valid source, `realloc_node_set`, `free_node_set`) returns and leaves
`a` valid with its length and leaves every flag of `a` as it was before the
clone was made. -/
theorem clone_node_set_independent (h : Heap) (a : node_set) (ha : valid h a) :
    ∃ c h1, clone_node_set a h = some (c, h1) ∧
      (c.node_set_val ≠ 0 → c.node_set_val ≠ a.node_set_val) ∧
      ∀ m : Mutation, (∀ src, m.source = some src → valid h1 src) →
        ∃ c' h2, m.apply c h1 = some (c', h2) ∧ valid h2 a ∧
          (∀ i, h2.read a.node_set_val i = h.read a.node_set_val i) ∧
          (∀ i, is_set a i h2 = is_set a i h) := by
  obtain ⟨c, h1, hclone, _, hvc, hfresh, _, hfr1⟩ := clone_node_set_spec h a ha
  have hlive : a.node_set_val ≠ 0 → h.size a.node_set_val ≠ none := by
    intro hp
    unfold valid at ha
    rw [if_neg hp] at ha
    rw [ha]
    exact Option.some_ne_none _
  have hne : c.node_set_val ≠ 0 → c.node_set_val ≠ a.node_set_val := by
    intro hcp heq
    rcases hfresh with hz | hnone
    · exact hcp hz
    · rw [heq] at hnone hcp
      exact hlive hcp hnone
  refine ⟨c, h1, hclone, hne, ?_⟩
  intro m hsrc
  obtain ⟨c', h2, happ, hfr2⟩ := Mutation.apply_frame m h1 c hvc hsrc
  have hreads : ∀ i, h2.read a.node_set_val i = h.read a.node_set_val i := by
    intro i
    by_cases hp : a.node_set_val = 0
    · rw [hp]; rfl
    · have hl := hlive hp
      have hl1 : h1.size a.node_set_val ≠ none := by rw [(hfr1 _ hl).1]; exact hl
      have hac : a.node_set_val ≠ c.node_set_val := by
        intro heq
        exact hne (by rw [← heq]; exact hp) heq.symm
      rw [(hfr2 _ hac hl1).2 i, (hfr1 _ hl).2 i]
  refine ⟨c', h2, happ, ?_, hreads, ?_⟩
  · unfold valid at ha ⊢
    by_cases hp : a.node_set_val = 0
    · rw [if_pos hp] at ha ⊢; exact ha
    · rw [if_neg hp] at ha ⊢
      have hl := hlive hp
      have hl1 : h1.size a.node_set_val ≠ none := by rw [(hfr1 _ hl).1]; exact hl
      have hac : a.node_set_val ≠ c.node_set_val := by
        intro heq
        exact hne (by rw [← heq]; exact hp) heq.symm
      rw [(hfr2 _ hac hl1).1, (hfr1 _ hl).1]
      exact ha
  · intro i
    unfold is_set
    rw [hreads i]

/-- Witness for C15: the clone of the set {0, 2} of length 3 is emptied by
`xor_node_set(c, a)` while `a` stays {0, 2}. -/
theorem clone_node_set_independent_witness :
    valid ⟨[some [1, 0, 1]]⟩ ⟨3, 1⟩ ∧
    ∃ c h1, clone_node_set ⟨3, 1⟩ ⟨[some [1, 0, 1]]⟩ = some (c, h1) ∧
      valid h1 ⟨3, 1⟩ ∧
      ∃ c' h2, (Mutation.xor_with ⟨3, 1⟩).apply c h1 = some (c', h2) ∧ valid h2 ⟨3, 1⟩ ∧
        (∀ i, h2.read 1 i = Heap.read ⟨[some [1, 0, 1]]⟩ 1 i) ∧
        (∀ i, is_set ⟨3, 1⟩ i h2 = is_set ⟨3, 1⟩ i ⟨[some [1, 0, 1]]⟩) := by
  refine ⟨by decide, ?_⟩
  obtain ⟨c, h1, hc, _, hm⟩ :=
    clone_node_set_independent ⟨[some [1, 0, 1]]⟩ ⟨3, 1⟩ (by decide)
  have hval : clone_node_set ⟨3, 1⟩ ⟨[some [1, 0, 1]]⟩
      = some (⟨3, 2⟩, ⟨[some [1, 0, 1], some [1, 0, 1]]⟩) := by decide
  rw [hval] at hc
  cases hc
  exact ⟨_, _, hval, by decide,
    hm (Mutation.xor_with ⟨3, 1⟩) (fun src hs => by cases hs; decide)⟩

/-! ## Canonical booleans -/

theorem c_and_canonical (a b : bool_t) :
    c_and a (some b) = some 0 ∨ c_and a (some b) = some 1 := by
  unfold c_and
  by_cases ha : a = 0
  · left; simp [ha]
  · by_cases hb : b = 0
    · left; simp [ha, hb]
    · right; simp [ha, hb]

theorem c_or_canonical (a b : bool_t) :
    c_or a (some b) = some 0 ∨ c_or a (some b) = some 1 := by
  unfold c_or
  by_cases ha : a = 0
  · by_cases hb : b = 0
    · left; simp [ha, hb]
    · right; simp [ha, hb]
  · right; simp [ha]

theorem canonical_of_reads (h h' : Heap) (s s' : node_set)
    (hlen : s'.node_set_len ≤ s.node_set_len)
    (hrd : ∀ i, i < s'.node_set_len → h'.read s'.node_set_val i = h.read s.node_set_val i)
    (hc : canonical h s) : canonical h' s' := by
  intro i hi
  rw [hrd i hi]
  exact hc i (by omega)

/-- C19: every flag stays a canonical boolean.  For valid operand sets `x` and
`y` whose stored flags are all 0 or 1, each of `alloc_node_set`,
`realloc_node_set`, `init_node_set`, `copy_node_set` (from `y` to `x`),
`clone_node_set`, `set_node_set`, `remove_node`, `and_node_set`, `or_node_set`,
`xor_node_set` and `not_node_set` (with `x` as destination and `y` as source)
returns, and every stored flag of the resulting set is again 0 or 1. -/
theorem canonical_preserved (h : Heap) (x y : node_set) (n i : Nat) (junk : Nat → bool_t)
    (hx : valid h x) (hy : valid h y) (cx : canonical h x) (cy : canonical h y) :
    canonical (alloc_node_set x n h).2 (alloc_node_set x n h).1 ∧
    (∃ s' h', realloc_node_set x n junk h = some (s', h') ∧ canonical h' s') ∧
    (∃ s' h', init_node_set x n h = some (s', h') ∧ canonical h' s') ∧
    (∃ s' h', copy_node_set y x h = some (s', h') ∧ canonical h' s') ∧
    (∃ s' h', clone_node_set x h = some (s', h') ∧ canonical h' s') ∧
    (∃ h', set_node_set x h = some (x, h') ∧ canonical h' x) ∧
    (∃ h', remove_node x i h = some h' ∧ canonical h' x) ∧
    (∃ h', and_node_set x y h = some h' ∧ canonical h' x) ∧
    (∃ h', or_node_set x y h = some h' ∧ canonical h' x) ∧
    (∃ h', xor_node_set x y h = some h' ∧ canonical h' x) ∧
    (∃ h', not_node_set x y h = some h' ∧ canonical h' x) := by
  refine ⟨?_, ?_, ?_, ?_, ?_, ?_, ?_, ?_, ?_, ?_, ?_⟩
  · obtain ⟨hs, _, _, hrd⟩ := alloc_node_set_spec h x n
    intro j hj
    rw [hs] at hj ⊢
    left
    show (alloc_node_set x n h).2.read (h.blocks.length + 1) j = some 0
    rw [hrd, if_pos rfl, if_pos hj]
  · obtain ⟨p', h', hre, _, _, _, hkeep, hzero, _⟩ := realloc_node_set_spec h x n junk hx
    refine ⟨⟨n, p'⟩, h', hre, ?_⟩
    intro j hj
    show h'.read p' j = some 0 ∨ h'.read p' j = some 1
    by_cases hjx : j < x.node_set_len
    · rw [hkeep j hjx hj]
      exact cx j hjx
    · left
      exact hzero j (by omega) hj
  · obtain ⟨h', hinit, _, hrd⟩ := init_node_set_spec h x n hx
    refine ⟨_, h', hinit, ?_⟩
    intro j hj
    left
    show h'.read (h.blocks.length + 1) j = some 0
    rw [hrd, if_pos rfl, if_pos hj]
  · by_cases hpos : 0 < y.node_set_len
    · obtain ⟨d', h', hcopy, hlen, _, _, _, hrd, _⟩ := copy_node_set_spec h y x hy hx hpos
      exact ⟨d', h', hcopy, canonical_of_reads h h' y d' (by omega)
        (fun j hj => hrd j (by omega)) cy⟩
    · refine ⟨x, h, ?_, cx⟩
      unfold copy_node_set
      rw [if_neg hpos]
  · obtain ⟨c, h', hclone, hlen, _, _, hrd, _⟩ := clone_node_set_spec h x hx
    exact ⟨c, h', hclone, canonical_of_reads h h' x c (by omega)
      (fun j hj => hrd j (by omega)) cx⟩
  · obtain ⟨h', hset, _, hrd⟩ := set_node_set_spec h x hx
    refine ⟨h', hset, ?_⟩
    intro j hj
    right
    rw [hrd, if_pos ⟨rfl, hj⟩]
    rfl
  · obtain ⟨h', hrem, _, hrd⟩ := remove_node_spec h x i hx
    refine ⟨h', hrem, ?_⟩
    intro j hj
    rw [hrd]
    by_cases hc : x.node_set_val = x.node_set_val ∧ j = i ∧ i < x.node_set_len
    · left; rw [if_pos hc]; rfl
    · rw [if_neg hc]; exact cx j hj
  · obtain ⟨h', hop, _, hrd⟩ := and_node_set_spec h x y hx hy
    refine ⟨h', hop, ?_⟩
    intro j hj
    rw [hrd]
    by_cases hc : x.node_set_val = x.node_set_val ∧ j < min x.node_set_len y.node_set_len
    · obtain ⟨a, ha⟩ := valid_read h x hx j hj
      obtain ⟨b, hb⟩ := valid_read h y hy j (by omega)
      rw [if_pos hc, ha, hb, Option.some_bind]
      exact c_and_canonical a b
    · rw [if_neg hc]; exact cx j hj
  · obtain ⟨h', hop, _, hrd⟩ := or_node_set_spec h x y hx hy
    refine ⟨h', hop, ?_⟩
    intro j hj
    rw [hrd]
    by_cases hc : x.node_set_val = x.node_set_val ∧ j < min x.node_set_len y.node_set_len
    · obtain ⟨a, ha⟩ := valid_read h x hx j hj
      obtain ⟨b, hb⟩ := valid_read h y hy j (by omega)
      rw [if_pos hc, ha, hb, Option.some_bind]
      exact c_or_canonical a b
    · rw [if_neg hc]; exact cx j hj
  · obtain ⟨h', hop, _, hrd⟩ := xor_node_set_spec h x y hx hy
    refine ⟨h', hop, ?_⟩
    intro j hj
    rw [hrd]
    by_cases hc : x.node_set_val = x.node_set_val ∧ j < min x.node_set_len y.node_set_len
    · rw [if_pos hc]
      rcases cx j hj with ha | ha <;> rcases cy j (by omega) with hb | hb <;>
        rw [ha, hb] <;> decide
    · rw [if_neg hc]; exact cx j hj
  · obtain ⟨h', hop, _, hrd⟩ := not_node_set_spec h x y hx hy
    refine ⟨h', hop, ?_⟩
    intro j hj
    rw [hrd]
    by_cases hc : x.node_set_val = x.node_set_val ∧ j < min x.node_set_len y.node_set_len
    · obtain ⟨b, hb⟩ := valid_read h y hy j (by omega)
      rw [if_pos hc, hb]
      rw [Option.map_some']
      by_cases hbt : b = TRUE
      · left; rw [if_pos hbt]; rfl
      · right; rw [if_neg hbt]; rfl
    · rw [if_neg hc]; exact cx j hj

/-- Witness for C19: the destination {0, 2} of length 3 and the source {1} of
length 2, resized to 4 over memory filled with 7, index 0 being removed. -/
theorem canonical_preserved_witness :
    valid ⟨[some [1, 0, 1], some [0, 1]]⟩ ⟨3, 1⟩ ∧
    valid ⟨[some [1, 0, 1], some [0, 1]]⟩ ⟨2, 2⟩ ∧
    canonical ⟨[some [1, 0, 1], some [0, 1]]⟩ ⟨3, 1⟩ ∧
    canonical ⟨[some [1, 0, 1], some [0, 1]]⟩ ⟨2, 2⟩ ∧
    (canonical (alloc_node_set ⟨3, 1⟩ 4 ⟨[some [1, 0, 1], some [0, 1]]⟩).2
        (alloc_node_set ⟨3, 1⟩ 4 ⟨[some [1, 0, 1], some [0, 1]]⟩).1 ∧
      (∃ s' h', realloc_node_set ⟨3, 1⟩ 4 (fun _ => 7) ⟨[some [1, 0, 1], some [0, 1]]⟩
        = some (s', h') ∧ canonical h' s') ∧
      (∃ s' h', init_node_set ⟨3, 1⟩ 4 ⟨[some [1, 0, 1], some [0, 1]]⟩ = some (s', h') ∧
        canonical h' s') ∧
      (∃ s' h', copy_node_set ⟨2, 2⟩ ⟨3, 1⟩ ⟨[some [1, 0, 1], some [0, 1]]⟩ = some (s', h') ∧
        canonical h' s') ∧
      (∃ s' h', clone_node_set ⟨3, 1⟩ ⟨[some [1, 0, 1], some [0, 1]]⟩ = some (s', h') ∧
        canonical h' s') ∧
      (∃ h', set_node_set ⟨3, 1⟩ ⟨[some [1, 0, 1], some [0, 1]]⟩ = some (⟨3, 1⟩, h') ∧
        canonical h' ⟨3, 1⟩) ∧
      (∃ h', remove_node ⟨3, 1⟩ 0 ⟨[some [1, 0, 1], some [0, 1]]⟩ = some h' ∧
        canonical h' ⟨3, 1⟩) ∧
      (∃ h', and_node_set ⟨3, 1⟩ ⟨2, 2⟩ ⟨[some [1, 0, 1], some [0, 1]]⟩ = some h' ∧
        canonical h' ⟨3, 1⟩) ∧
      (∃ h', or_node_set ⟨3, 1⟩ ⟨2, 2⟩ ⟨[some [1, 0, 1], some [0, 1]]⟩ = some h' ∧
        canonical h' ⟨3, 1⟩) ∧
      (∃ h', xor_node_set ⟨3, 1⟩ ⟨2, 2⟩ ⟨[some [1, 0, 1], some [0, 1]]⟩ = some h' ∧
        canonical h' ⟨3, 1⟩) ∧
      (∃ h', not_node_set ⟨3, 1⟩ ⟨2, 2⟩ ⟨[some [1, 0, 1], some [0, 1]]⟩ = some h' ∧
        canonical h' ⟨3, 1⟩)) :=
  ⟨by decide, by decide, by decide, by decide,
    canonical_preserved ⟨[some [1, 0, 1], some [0, 1]]⟩ ⟨3, 1⟩ ⟨2, 2⟩ 4 0 (fun _ => 7)
      (by decide) (by decide) (by decide) (by decide)⟩

/-! ## Negation in place -/

theorem countP_complement (n : Nat) (f g : Nat → bool_t)
    (hfg : ∀ j, j < n → ((g j != 0) = true ↔ ¬ (f j != 0) = true)) :
    (List.range n).countP (fun j => g j != 0)
      = n - (List.range n).countP (fun j => f j != 0) := by
  have hsum := List.length_eq_countP_add_countP (fun j => f j != 0) (List.range n)
  rw [List.length_range] at hsum
  have hcongr : (List.range n).countP (fun j => g j != 0)
      = (List.range n).countP (fun j => decide (¬ (f j != 0) = true)) := by
    apply List.countP_congr
    intro j hj
    rw [hfg j (List.mem_range.mp hj)]
    simp
  rw [hcongr]
  omega

/-- C20: for every valid node set `a` whose flags are all 0 or 1, negating it in
place with `not_node_set(a, a)` returns and yields the exact complement: every
flag is set afterwards iff it was not set before, `node_count` afterwards is the
length of `a` minus `node_count` before, and a second `not_node_set(a, a)`
returns and restores every flag of the heap, those of `a` among them. -/
theorem not_node_set_self_complement (h : Heap) (a : node_set) (ha : valid h a)
    (hc : canonical h a) :
    ∃ h1 h2 before after, not_node_set a a h = some h1 ∧ not_node_set a a h1 = some h2 ∧
      valid h1 a ∧ valid h2 a ∧
      (∀ i, i < a.node_set_len →
        ∃ v w, h.read a.node_set_val i = some v ∧ h1.read a.node_set_val i = some w ∧
          truthy w = !truthy v) ∧
      node_count a h = some before ∧ node_count a h1 = some after ∧
      after = a.node_set_len - before ∧
      (∀ q j, h2.read q j = h.read q j) := by
  obtain ⟨h1, hn1, hsz1, hrd1⟩ := not_node_set_spec h a a ha ha
  have ha1 : valid h1 a := valid_of_size_eq h h1 a hsz1 ha
  obtain ⟨h2, hn2, hsz2, hrd2⟩ := not_node_set_spec h1 a a ha1 ha1
  have ha2 : valid h2 a := valid_of_size_eq h1 h2 a hsz2 ha1
  have hfl0 := valid_flags h a ha
  have hfl1 : ∀ j, j < a.node_set_len → h1.read a.node_set_val j
      = some ((fun j => if (h.read a.node_set_val j).getD 0 = TRUE then FALSE else TRUE) j) := by
    intro j hj
    rw [hrd1, if_pos ⟨rfl, by simpa using hj⟩, hfl0 j hj]
    rfl
  refine ⟨h1, h2, _, _, hn1, hn2, ha1, ha2, ?_, node_count_of_flags a h _ hfl0,
    node_count_of_flags a h1 _ hfl1, ?_, ?_⟩
  · intro i hi
    refine ⟨_, _, hfl0 i hi, hfl1 i hi, ?_⟩
    rcases hc i hi with h0 | h1'
    · simp only [h0, Option.getD_some]; decide
    · simp only [h1', Option.getD_some]; decide
  · apply countP_complement
    intro j hj
    rcases hc j hj with h0 | h1'
    · simp only [h0, Option.getD_some]; decide
    · simp only [h1', Option.getD_some]; decide
  · intro q j
    rw [hrd2]
    by_cases hcond : q = a.node_set_val ∧ j < min a.node_set_len a.node_set_len
    · have hj : j < a.node_set_len := by simpa using hcond.2
      rw [if_pos hcond, hfl1 j hj, hcond.1]
      rcases hc j hj with h0 | h1'
      · simp only [h0, Option.getD_some]; decide
      · simp only [h1', Option.getD_some]; decide
    · rw [if_neg hcond, hrd1, if_neg hcond]

/-- Witness for C20: the set {0, 2} of length 3 is negated to {1} and back. -/
theorem not_node_set_self_complement_witness :
    valid ⟨[some [1, 0, 1]]⟩ ⟨3, 1⟩ ∧ canonical ⟨[some [1, 0, 1]]⟩ ⟨3, 1⟩ ∧
    ∃ h1 h2 before after, not_node_set ⟨3, 1⟩ ⟨3, 1⟩ ⟨[some [1, 0, 1]]⟩ = some h1 ∧
      not_node_set ⟨3, 1⟩ ⟨3, 1⟩ h1 = some h2 ∧
      valid h1 ⟨3, 1⟩ ∧ valid h2 ⟨3, 1⟩ ∧
      (∀ i, i < 3 →
        ∃ v w, Heap.read ⟨[some [1, 0, 1]]⟩ 1 i = some v ∧ h1.read 1 i = some w ∧
          truthy w = !truthy v) ∧
      node_count ⟨3, 1⟩ ⟨[some [1, 0, 1]]⟩ = some before ∧ node_count ⟨3, 1⟩ h1 = some after ∧
      after = 3 - before ∧
      (∀ q j, h2.read q j = Heap.read ⟨[some [1, 0, 1]]⟩ q j) :=
  ⟨by decide, by decide,
    not_node_set_self_complement ⟨[some [1, 0, 1]]⟩ ⟨3, 1⟩ (by decide) (by decide)⟩

/-! ## The LRU order of the instance cache -/

/-- C18: in a cache with a ceiling of 3 rows, creating the instances for the
synodes 1, 2, 3 with `get_cache`, touching synode 1 with `get_cache` and then
creating synode 4 evicts synode 2, the least recently touched, and leaves the
LRU order [4, 1, 3] from head to tail.  In general a creation at capacity
evicts the LRU tail and puts the new instance at the head, and a hit moves the
instance to the head and keeps the other instances in their order. -/
theorem get_cache_lru_scenario :
    (get_cache 1 (get_cache 3 (get_cache 2 (get_cache 1 (init_cache 3))))).lru = [1, 3, 2] ∧
    (get_cache 4 (get_cache 1 (get_cache 3 (get_cache 2 (get_cache 1 (init_cache 3)))))).lru
      = [4, 1, 3] ∧
    Cache.last_removed
      (get_cache 4 (get_cache 1 (get_cache 3 (get_cache 2 (get_cache 1 (init_cache 3))))))
      = some 2 ∧
    (∀ (c : Cache) (s t : synode_no) (l : List synode_no), s ∉ c.lru →
      c.max_rows ≤ c.lru.length → c.lru = l ++ [t] →
      (get_cache s c).lru = s :: l ∧ (get_cache s c).last_removed = some t) ∧
    (∀ (c : Cache) (s : synode_no), s ∈ c.lru →
      (get_cache s c).lru = s :: c.lru.erase s ∧
      (get_cache s c).last_removed = c.last_removed ∧
      (get_cache s c).lru.Perm c.lru) := by
  refine ⟨by decide, by decide, by decide, ?_, ?_⟩
  · intro c s t l hs hfull hl
    have hmiss : hash_get s c = false := by simp [hash_get, hs]
    have hev : evict_lru_tail c = { c with lru := l, last_removed := some t } := by
      unfold evict_lru_tail
      rw [hl]
      simp
    have hget : get_cache s c = { c with lru := s :: l, last_removed := some t } := by
      unfold get_cache create_instance
      rw [hmiss]
      simp only [Bool.false_eq_true, if_false, if_pos hfull, hev]
    rw [hget]
    exact ⟨rfl, rfl⟩
  · intro c s hs
    have hhit : hash_get s c = true := by simp [hash_get, hs]
    have hget : get_cache s c = { c with lru := s :: c.lru.erase s } := by
      unfold get_cache
      rw [hhit]
      simp only [if_true]
    rw [hget]
    exact ⟨rfl, rfl, (List.perm_cons_erase hs).symm⟩

/-- Witness for C18: the general part at the cache of the scenario, where the
creation of synode 4 finds the tail 2 and the touch of 1 finds 1 at the tail. -/
theorem get_cache_lru_scenario_witness :
    (4 ∉ (⟨3, [1, 3, 2], none⟩ : Cache).lru ∧ 3 ≤ [1, 3, 2].length ∧
      [1, 3, 2] = [1, 3] ++ [2] ∧
      (get_cache 4 ⟨3, [1, 3, 2], none⟩).lru = 4 :: [1, 3] ∧
      (get_cache 4 ⟨3, [1, 3, 2], none⟩).last_removed = some 2) ∧
    (1 ∈ (⟨3, [3, 2, 1], none⟩ : Cache).lru ∧
      (get_cache 1 ⟨3, [3, 2, 1], none⟩).lru = 1 :: [3, 2, 1].erase 1 ∧
      (get_cache 1 ⟨3, [3, 2, 1], none⟩).last_removed = none ∧
      (get_cache 1 ⟨3, [3, 2, 1], none⟩).lru.Perm [3, 2, 1]) :=
  ⟨⟨by decide, by decide, rfl,
      get_cache_lru_scenario.2.2.2.1 ⟨3, [1, 3, 2], none⟩ 4 2 [1, 3]
        (by decide) (by decide) rfl⟩,
    by decide, get_cache_lru_scenario.2.2.2.2 ⟨3, [3, 2, 1], none⟩ 1 (by decide)⟩

end Xcom
